import Mathlib

/-
Verification of the Beehive file-curation pipeline
(`beehive-file-ingest/crocus_file_curator.py` and
`beehive-file-ingest/beehive_file_fetcher.py`).

Paths are modelled as the strings the Python code manipulates; the
`os.path` helpers used by the source (`join`, `dirname`, `basename`,
string slicing, `startswith`, `lstrip`) are embedded below on `List Char`
data.  Directory semantics ("is this path inside the root?") is expressed
by splitting a path into components and resolving `..` components, which
mirrors what the operating system does when the path is actually used.
-/

set_option autoImplicit false

/-- Splits a character list into path components at every slash.
Accumulates the current component in `acc` (reversed). -/
def pathComponentsAux : List Char → List Char → List String
  | acc, [] => [String.mk acc.reverse]
  | acc, c :: rest =>
    if c = '/' then String.mk acc.reverse :: pathComponentsAux [] rest
    else pathComponentsAux (c :: acc) rest

/-- The components of a POSIX path string, with empty components and `.`
components removed (they do not change the denoted directory). -/
def pathComponents (s : String) : List String :=
  (pathComponentsAux [] s.data).filter (fun c => !(c == "" || c == "."))

/-- Resolves `..` components the way the filesystem does for an absolute
path: a `..` removes the previous component. -/
def resolveDots (cs : List String) : List String :=
  cs.foldl (fun acc c => if c = ".." then acc.dropLast else acc ++ [c]) []

/-- A path `p` lies inside the directory `root` when the resolved
components of `root` are an initial segment of the resolved components
of `p`. -/
def insideRoot (root p : String) : Bool :=
  (resolveDots (pathComponents root)).isPrefixOf (resolveDots (pathComponents p))

/-- Python `s.startswith(pat)` for strings. -/
def pyStartsWith (s pat : String) : Bool :=
  pat.data.isPrefixOf s.data

/-- Python `s.endswith(pat)` for strings. -/
def pyEndsWith (s pat : String) : Bool :=
  pat.data.isSuffixOf s.data

/-- Python `s.startswith("/")` (used by `os.path.join`). -/
def startsWithSlash (s : String) : Bool :=
  s.data.headD ' ' == '/'

/-- Python `s.endswith("/")` (used by `os.path.join`). -/
def endsWithSlash (s : String) : Bool :=
  s.data.getLastD ' ' == '/'

/-- Python `s.lstrip("/")`: removes all leading slashes. -/
def pyLstripSlash (s : String) : String :=
  String.mk (s.data.dropWhile (fun c => c == '/'))

/-- Python slicing `s[n:]` (character based). -/
def dropChars (s : String) (n : Nat) : String :=
  String.mk (s.data.drop n)

/-- Python `len(s)` (character based). -/
def strLen (s : String) : Nat :=
  s.data.length

/-- POSIX `os.path.join(a, b)` for two arguments: an absolute `b`
replaces `a`; otherwise `b` is appended, inserting a slash unless `a`
is empty or already ends in one. -/
def osJoin (a b : String) : String :=
  if startsWithSlash b then b
  else if a = "" then b
  else if endsWithSlash a then a ++ b
  else a ++ "/" ++ b

/-- POSIX `os.path.dirname(p)`: everything up to the final slash, with
trailing slashes stripped unless the result consists only of slashes. -/
def pyDirname (s : String) : String :=
  let head := (s.data.reverse.dropWhile (fun c => c != '/')).reverse
  if head.all (fun c => c == '/') then String.mk head
  else String.mk (head.reverse.dropWhile (fun c => c == '/')).reverse

/-- POSIX `os.path.basename(p)`: everything after the final slash. -/
def pyBasename (s : String) : String :=
  String.mk ((s.data.reverse.takeWhile (fun c => c != '/')).reverse)

/-- Calendar date, standing for the `datetime` values the curator passes
around (only the date part is ever used by the path logic). -/
structure DateT where
  year : Nat
  month : Nat
  day : Nat
deriving DecidableEq, Repr

/-- Two-digit zero-padded decimal rendering, as `strftime("%m")` /
`strftime("%d")` produce (months and days are below 100). -/
def fmt2 (n : Nat) : String :=
  String.mk [Nat.digitChar (n / 10 % 10), Nat.digitChar (n % 10)]

/-- Four-digit zero-padded decimal rendering, as `strftime("%Y")`
produces for years up to 9999. -/
def fmt4 (n : Nat) : String :=
  String.mk [Nat.digitChar (n / 1000 % 10), Nat.digitChar (n / 100 % 10),
             Nat.digitChar (n / 10 % 10), Nat.digitChar (n % 10)]

/-- The `strftime("%Y-%m-%d")` rendering of a date. -/
def strftimeDate (d : DateT) : String :=
  fmt4 d.year ++ "-" ++ fmt2 d.month ++ "-" ++ fmt2 d.day

namespace Curator

/-- Lines 81-91 of `crocus_file_curator.py`: nested `YYYY/MM/DD`
directory below `base_path`. -/
def _create_dated_folder (base_path : String) (date : DateT) : String :=
  osJoin (osJoin (osJoin base_path (fmt4 date.year)) (fmt2 date.month)) (fmt2 date.day)

/-- One catalog row as used by the curator: the `value` column and the
optional `meta.original_path` column (`none` models a missing column,
whose lookup raises `KeyError`). -/
structure Row where
  value : String
  meta_original_path : Option String

/-- The settings dict produced by `parse_job_settings`
(lines 107-121 of `crocus_file_curator.py`). -/
structure Settings where
  job_name : String
  upload_name : String
  vsn : String
  start_date : String
  end_date : String
  date_regex : Option String
  date_format : Option String
  extension : Option (List String)
  group_by_date : Bool
  keep_original_path : Bool
  mount_dir : String
  subfolder : String
  rename_function : Option (String → String)

/-- Python `site or "UNKNOWN"` from line 127. -/
def siteOrUnknown (site : Option String) : String :=
  match site with
  | none => "UNKNOWN"
  | some s => if s = "" then "UNKNOWN" else s

/-- Lines 126-129 of `crocus_file_curator.py`:
`os.path.join(root_dir, upload_name, f"{vsn}-{site}", subfolder)`. -/
def build_output_base (root_dir upload_name vsn : String) (site : Option String)
    (subfolder : String) : String :=
  osJoin (osJoin (osJoin root_dir upload_name) (vsn ++ "-" ++ siteOrUnknown site)) subfolder

/-- Lines 132-146 of `crocus_file_curator.py`.  The `try` block catches
every exception and returns `None`: a missing `meta.original_path`
column (`KeyError`) and a mount-prefix mismatch (`ValueError`) both
yield `none`. -/
def resolve_output_path (row : Row) (base : String) (date : DateT)
    (settings : Settings) : Option String :=
  if settings.keep_original_path then
    match row.meta_original_path with
    | none => none
    | some orig_path =>
      if pyStartsWith orig_path settings.mount_dir then
        let rel_path := pyLstripSlash (dropChars orig_path (strLen settings.mount_dir))
        some (osJoin base (pyDirname rel_path))
      else none
  else if settings.group_by_date then some (_create_dated_folder base date)
  else some base

end Curator

namespace Fetcher

/-
Embedding of `beehive_file_fetcher.py`.

The filesystem is a pair of a file map (association list from path to
content, first entry wins, so a write shadows older entries) and the set
of directories created so far.  The network is a deterministic function
`remote : url -> Option content`: `some body` stands for an HTTP 200
response, `none` for any non-200 status or transport exception (both
make `_fetch_and_save_file` return `False`).  The compiled
`date_regex` extractor of `_compile_date_extractor` is passed as a
function `String -> Option String`, exactly as the closure is in the
source; the basic-auth credentials are folded into `remote`.
-/

/-- On-disk state: files with contents plus created directories. -/
structure FS where
  files : List (String × String)
  dirs : List String
deriving DecidableEq, Repr

/-- Python `os.path.exists(target_path)` for the files the fetcher writes. -/
def fileExists (fs : FS) (p : String) : Bool :=
  (fs.files.lookup p).isSome

/-- Python `open(filepath, "wb")` followed by writing the body. -/
def writeFile (fs : FS) (p c : String) : FS :=
  { fs with files := (p, c) :: fs.files }

/-- Python `os.makedirs(target_folder, exist_ok=True)`. -/
def makedirs (fs : FS) (d : String) : FS :=
  if d ∈ fs.dirs then fs else { fs with dirs := d :: fs.dirs }

/-- Lines 117-133 of `beehive_file_fetcher.py`: on HTTP 200 the body is
written to `filepath` and `True` is returned; on any non-200 status or
exception nothing is written and `False` is returned. -/
def _fetch_and_save_file (remote : String → Option String) (url filepath : String)
    (fs : FS) : FS × Bool :=
  match remote url with
  | some content => (writeFile fs filepath content, true)
  | none => (fs, false)

/-- Line 113-114 of `beehive_file_fetcher.py`: `YYYYMM/YYYYMMDD`
sub-folders from an eight character `YYYYMMDD` date string. -/
def _create_dated_folder_str (base_path date_str : String) : String :=
  let ym := String.mk (date_str.data.take 6)
  let ymd := String.mk (date_str.data.take 8)
  osJoin (osJoin base_path ym) ymd

/-- What happened to one URL (the per-record outcome classes of the
download loop, lines 56-87). -/
inductive OutKind
  | skippedNoDate
  | skippedExists
  | dryRunWouldDownload
  | downloaded
  | failedHttp
deriving DecidableEq, Repr

/-- One loop iteration's outcome: the URL, the destination path it
resolved to (when it had one) and what was done. -/
structure Outcome where
  url : String
  path : Option String
  kind : OutKind
deriving DecidableEq, Repr

/-- The observable result of one `download_beehive_files` call: the final
filesystem, the returned `saved_files` list, the outcome of every
processed URL and the `(url, target_path)` pairs for which the network
was actually contacted. -/
structure RunResult where
  fs : FS
  saved : List String
  outcomes : List Outcome
  netCalls : List (String × String)
deriving DecidableEq, Repr

/-- Line 57-58: `os.path.basename` plus the optional rename function. -/
def filenameOf (rename_function : Option (String → String)) (url : String) : String :=
  match rename_function with
  | some f => f (pyBasename url)
  | none => pyBasename url

/-- Lines 60-69: the target folder for a filename, `none` when date
grouping finds no date in the filename. -/
def folderOf (group_by_date : Bool) (extract_date : String → Option String)
    (destination fn : String) : Option String :=
  if group_by_date then (extract_date fn).map (fun ds => _create_dated_folder_str destination ds)
  else some destination

/-- The destination path one URL resolves to (folder joined with the
renamed basename), `none` when the URL is skipped for lack of a date. -/
def targetOf (group_by_date : Bool) (extract_date : String → Option String)
    (destination : String) (rename_function : Option (String → String))
    (url : String) : Option String :=
  (folderOf group_by_date extract_date destination (filenameOf rename_function url)).map
    (fun folder => osJoin folder (filenameOf rename_function url))

/-- The per-URL loop of lines 56-87 of `beehive_file_fetcher.py`. -/
def processUrls (remote : String → Option String) (destination : String)
    (group_by_date : Bool) (extract_date : String → Option String)
    (skip_if_exists : Bool) (rename_function : Option (String → String))
    (dry_run : Bool) : FS → List String → RunResult
  | fs, [] => { fs := fs, saved := [], outcomes := [], netCalls := [] }
  | fs, url :: rest =>
    let fn := filenameOf rename_function url
    match folderOf group_by_date extract_date destination fn with
    | none =>
      let r := processUrls remote destination group_by_date extract_date skip_if_exists
        rename_function dry_run fs rest
      { r with outcomes := { url := url, path := none, kind := .skippedNoDate } :: r.outcomes }
    | some folder =>
      let fs1 := makedirs fs folder
      let tp := osJoin folder fn
      if skip_if_exists && fileExists fs1 tp then
        let r := processUrls remote destination group_by_date extract_date skip_if_exists
          rename_function dry_run fs1 rest
        { r with outcomes := { url := url, path := some tp, kind := .skippedExists } :: r.outcomes }
      else if dry_run then
        let r := processUrls remote destination group_by_date extract_date skip_if_exists
          rename_function dry_run fs1 rest
        { r with saved := tp :: r.saved,
                 outcomes := { url := url, path := some tp, kind := .dryRunWouldDownload } :: r.outcomes }
      else
        match _fetch_and_save_file remote url tp fs1 with
        | (fs2, true) =>
          let r := processUrls remote destination group_by_date extract_date skip_if_exists
            rename_function dry_run fs2 rest
          { r with saved := tp :: r.saved,
                   outcomes := { url := url, path := some tp, kind := .downloaded } :: r.outcomes,
                   netCalls := (url, tp) :: r.netCalls }
        | (fs2, false) =>
          let r := processUrls remote destination group_by_date extract_date skip_if_exists
            rename_function dry_run fs2 rest
          { r with outcomes := { url := url, path := some tp, kind := .failedHttp } :: r.outcomes,
                   netCalls := (url, tp) :: r.netCalls }

/-- Pandas `Series.unique()`: first occurrence of each value, in order. -/
def uniqAux (seen : List String) : List String → List String
  | [] => []
  | x :: xs => if x ∈ seen then uniqAux seen xs else x :: uniqAux (x :: seen) xs

/-- Lines 48-51: extension filtering followed by deduplication of the
`value` column. -/
def candidatesOf (extension_filter : Option String) (values : List String) : List String :=
  let urls0 := match extension_filter with
    | some ext => values.filter (fun u => pyEndsWith u ext)
    | none => values
  uniqAux [] urls0

/-- The date extractor actually used by the loop: the compiled regex
closure when grouping is on, never consulted otherwise. -/
def extractorOf (group_by_date : Bool) (date_regex : Option (String → Option String)) :
    String → Option String :=
  if group_by_date then
    match date_regex with
    | some f => f
    | none => fun _ => none
  else fun _ => none

/-- Lines 13-87 of `beehive_file_fetcher.py`.  `values` is the `value`
column of the dataframe; an empty column returns immediately;
`group_by_date` without a date regex raises before the loop (modelled
as `Except.error`, covering both the `re.compile(None)` failure at
line 53 and the explicit `ValueError` at line 62). -/
def download_beehive_files (remote : String → Option String) (values : List String)
    (destination : String) (extension_filter : Option String) (group_by_date : Bool)
    (skip_if_exists : Bool) (rename_function : Option (String → String))
    (date_regex : Option (String → Option String)) (dry_run : Bool) (fs : FS) :
    Except String RunResult :=
  if values.isEmpty then
    .ok { fs := fs, saved := [], outcomes := [], netCalls := [] }
  else if group_by_date && date_regex.isNone then
    .error "date grouping is enabled but no date regex was provided"
  else
    .ok (processUrls remote destination group_by_date (extractorOf group_by_date date_regex)
      skip_if_exists rename_function dry_run fs (candidatesOf extension_filter values))

end Fetcher

namespace Curator

/-- The YAML value of the `extension` key: absent, a single string, or a
list of strings. -/
inductive ExtVal
  | absent
  | str (s : String)
  | list (l : List String)
deriving DecidableEq, Repr

/-- One entry of the config's `jobs` list.  Every key may be absent;
`parse_job_settings` raises `KeyError` (modelled as `Except.error`) on
the mandatory ones. -/
structure Job where
  job : Option String
  upload_name : Option String
  vsn : Option String
  start_date : Option String
  end_date : Option String
  date_regex : Option String
  date_format : Option String
  extension : ExtVal
  group_by_date : Option Bool
  keep_original_path : Option Bool
  mount_dir : Option String
  subfolder : Option String
  waggle_filename_timestamp : Option Bool

/-- An uncaught Python `KeyError` naming the missing key. -/
inductive KeyErr
  | key (name : String)
deriving DecidableEq, Repr

/-- Line 105 of `crocus_file_curator.py`:
`re.sub(r"^\d+-", "", filename)` strips a leading digit run followed by
a dash. -/
def stripNumDash (filename : String) : String :=
  let ds := filename.data.takeWhile (fun c => c.isDigit)
  if ds.length > 0 && (filename.data.drop ds.length).headD ' ' == '-' then
    String.mk (filename.data.drop (ds.length + 1))
  else filename

/-- Lines 94-121 of `crocus_file_curator.py`.  `now` is the current UTC
date (`datetime.datetime.now(datetime.timezone.utc)`); the source
derives the `end_date` default from it with `strftime("%Y-%m-%d")`.
`job["job"]`, `job["upload_name"]`, `job["vsn"]` and
`job["start_date"]` are plain subscripts and raise `KeyError` when
absent, in the evaluation order of the returned dict literal. -/
def parse_job_settings (j : Job) (now : DateT) : Except KeyErr Settings :=
  let end_date := match j.end_date with
    | none => strftimeDate now
    | some s => if s = "" then strftimeDate now else s
  let extension : Option (List String) := match j.extension with
    | .absent => none
    | .str s => some [s]
    | .list l => if l.isEmpty then none else some l
  let rename_function : Option (String → String) :=
    if j.waggle_filename_timestamp.getD true then none else some stripNumDash
  match j.job with
  | none => .error (.key "job")
  | some job_name =>
    match j.upload_name with
    | none => .error (.key "upload_name")
    | some upload_name =>
      match j.vsn with
      | none => .error (.key "vsn")
      | some vsn =>
        match j.start_date with
        | none => .error (.key "start_date")
        | some start_date =>
          .ok { job_name := job_name, upload_name := upload_name, vsn := vsn,
                start_date := start_date, end_date := end_date,
                date_regex := j.date_regex, date_format := j.date_format,
                extension := extension,
                group_by_date := j.group_by_date.getD true,
                keep_original_path := j.keep_original_path.getD false,
                mount_dir := j.mount_dir.getD "/data",
                subfolder := j.subfolder.getD "",
                rename_function := rename_function }

/-- The top-level YAML config: credentials and the list of jobs. -/
structure Config where
  username : Option String
  password : Option String
  jobs : List Job

/-- The `for job in jobs` loop of lines 188-218: each job is parsed
(with no surrounding `try`, so a `KeyError` from `parse_job_settings`
propagates out of the whole loop), the optional name filter is applied,
and the job is started.  The day-window/query/download body is external
interaction; the model records which job names were started, in order. -/
def runJobsLoop (selected_job : Option String) (now : DateT) :
    List Job → Except KeyErr (List String)
  | [] => .ok []
  | j :: rest =>
    match parse_job_settings j now with
    | .error e => .error e
    | .ok s =>
      match runJobsLoop selected_job now rest with
      | .error e => .error e
      | .ok names =>
        match selected_job with
        | some sel => if s.job_name = sel then .ok (s.job_name :: names) else .ok names
        | none => .ok (s.job_name :: names)

/-- Lines 179-218 of `crocus_file_curator.py`: missing or empty
credentials abort the run early (logged, `return`, no exception);
otherwise the job loop runs. -/
def run_download_jobs (config : Config) (selected_job : Option String) (now : DateT) :
    Except KeyErr (List String) :=
  let credOk := match config.username with
    | none => false
    | some u =>
      if u = "" then false
      else match config.password with
        | none => false
        | some p => !(p = "")
  if credOk then runJobsLoop selected_job now config.jobs else .ok []

/-
Date windowing (lines 42-50 of `crocus_file_curator.py`).

Instants are seconds since the epoch (UTC).  `pd.date_range(start, end)`
with its default daily frequency yields the points
`start, start + 1 day, ...` while they do not exceed `end`, and the
empty sequence when `end < start`.  For each generated point the source
formats the point's calendar day with a fixed `T00:00:00Z` /
`T23:59:59Z` time of day; the model returns those window bounds as
seconds. -/
def pdDateRange (start_dt end_dt : Nat) : List Nat :=
  if start_dt ≤ end_dt then
    (List.range ((end_dt - start_dt) / 86400 + 1)).map (fun k => start_dt + k * 86400)
  else []

/-- Lines 42-50 of `crocus_file_curator.py`: one
`(day 00:00:00, day 23:59:59)` window per generated point. -/
def date_range_loop (start_dt end_dt : Nat) : List (Nat × Nat) :=
  (pdDateRange start_dt end_dt).map
    (fun t => (t / 86400 * 86400, t / 86400 * 86400 + 86399))

/-
Filename date extraction (lines 53-78 of `crocus_file_curator.py`).

`re.search` is embedded for literal (meta-character free) patterns:
`match.group(0)` is then the pattern itself when it occurs in the
filename.  `datetime.strptime` is embedded for the `"%Y%m%d"` format.
Python exceptions are explicit: the source's `except (ValueError,
IndexError)` catches exactly those two classes.
-/

/-- A raised Python exception, as far as the extraction path needs. -/
inductive PyErr
  | valueError (msg : String)
  | indexError (msg : String)
  | typeError (msg : String)
deriving DecidableEq, Repr

/-- The log level of one emitted log record. -/
inductive LogLevel
  | warning
  | error
deriving DecidableEq, Repr

/-- Whether `pat` occurs as a contiguous substring of `s`. -/
def containsSub (pat : List Char) : List Char → Bool
  | [] => pat.isPrefixOf []
  | c :: rest => pat.isPrefixOf (c :: rest) || containsSub pat rest

/-- `re.search(pat, s)` followed by `.group(0)` for a literal pattern:
the first match of a literal pattern is the pattern itself. -/
def reSearchLiteral (pat s : String) : Option String :=
  if containsSub pat.data s.data then some pat else none

/-- Decimal value of a digit character run. -/
def digitsToNat (cs : List Char) : Nat :=
  cs.foldl (fun a c => a * 10 + (c.toNat - 48)) 0

/-- Gregorian leap year rule, as `datetime` uses. -/
def isLeap (y : Nat) : Bool :=
  (y % 4 == 0 && y % 100 != 0) || (y % 400 == 0)

/-- Days in a month, as `datetime` validates them. -/
def daysInMonth (y m : Nat) : Nat :=
  if m = 2 then (if isLeap y then 29 else 28)
  else if m = 4 ∨ m = 6 ∨ m = 9 ∨ m = 11 then 30
  else 31

/-- `datetime.strptime(s, "%Y%m%d")`: eight digits, month and day range
checked; any failure raises `ValueError`. -/
def strptimeYmd (s : String) : Except PyErr DateT :=
  if s.data.length = 8 ∧ s.data.all (fun c => c.isDigit) then
    let y := digitsToNat (s.data.take 4)
    let m := digitsToNat ((s.data.drop 4).take 2)
    let d := digitsToNat ((s.data.drop 6).take 2)
    if 1 ≤ m ∧ m ≤ 12 then
      if 1 ≤ d ∧ d ≤ daysInMonth y m then .ok ⟨y, m, d⟩
      else .error (.valueError "day is out of range for month")
    else .error (.valueError "time data does not match format")
  else .error (.valueError "time data does not match format")

/-- The `try` block body of `_extract_date_from_filename`: search, then
parse, letting any parse exception propagate. -/
def extractBody (filename date_regex : String) :
    Except PyErr (Option DateT × List (LogLevel × String)) :=
  match reSearchLiteral date_regex filename with
  | none => .ok (none, [(.warning, "[WARN] No date found in filename: " ++ filename)])
  | some date_str =>
    match strptimeYmd date_str with
    | .ok d => .ok (some d, [])
    | .error e => .error e

/-- Lines 53-78 of `crocus_file_curator.py`: the surrounding
`try/except (ValueError, IndexError)` handler, which logs at ERROR
level (`logging.error`, line 77) and returns `None`; other exception
classes would propagate. -/
def _extract_date_from_filename (filename date_regex : String) :
    Except PyErr (Option DateT × List (LogLevel × String)) :=
  match extractBody filename date_regex with
  | .error (.valueError _) =>
    .ok (none, [(.error, "[ERROR] Failed to parse date from filename: " ++ filename)])
  | .error (.indexError _) =>
    .ok (none, [(.error, "[ERROR] Failed to parse date from filename: " ++ filename)])
  | .error e => .error e
  | .ok r => .ok r

end Curator

/-- A path string whose components never navigate upward. -/
def noDots (s : String) : Bool :=
  (pathComponents s).all (fun c => c != "..")

lemma pathComponentsAux_sep (xs ys : List Char) (acc : List Char) :
    pathComponentsAux acc (xs ++ '/' :: ys) =
      pathComponentsAux acc xs ++ pathComponentsAux [] ys := by
  induction xs generalizing acc with
  | nil => simp [pathComponentsAux]
  | cons c rest ih =>
    by_cases h : c = '/' <;> simp [pathComponentsAux, h, ih]

lemma pathComponents_empty : pathComponents "" = [] := rfl

lemma pathComponents_append_sep (a b : String) :
    pathComponents (a ++ "/" ++ b) = pathComponents a ++ pathComponents b := by
  unfold pathComponents
  have h : (a ++ "/" ++ b).data = a.data ++ '/' :: b.data := by
    simp [String.data_append]
  rw [h, pathComponentsAux_sep, List.filter_append]

lemma endsWithSlash_data {a : String} (h : endsWithSlash a = true) :
    a.data = a.data.dropLast ++ ['/'] := by
  unfold endsWithSlash at h
  have hne : a.data ≠ [] := by
    intro h0; rw [h0] at h; simp at h
  have h1 : a.data.getLastD ' ' = '/' := by simpa using h
  have h2 : a.data.getLast hne = '/' := by
    rw [List.getLastD_eq_getLast?, List.getLast?_eq_getLast _ hne] at h1
    simpa using h1
  conv_lhs => rw [← List.dropLast_append_getLast hne, h2]

lemma pathComponents_osJoin (a b : String) (hb : startsWithSlash b = false) :
    pathComponents (osJoin a b) = pathComponents a ++ pathComponents b := by
  unfold osJoin
  rw [hb]
  simp only [Bool.false_eq_true, if_false]
  by_cases ha : a = ""
  · simp [ha, pathComponents_empty]
  · rw [if_neg ha]
    by_cases hsl : endsWithSlash a
    · rw [if_pos hsl]
      have hd := endsWithSlash_data hsl
      have h1 : (a ++ b).data = a.data.dropLast ++ '/' :: b.data := by
        rw [String.data_append]; rw [hd]; simp
      have h2 : a.data = a.data.dropLast ++ '/' :: ([] : List Char) := by
        conv_lhs => rw [hd]
      unfold pathComponents
      rw [h1, pathComponentsAux_sep, List.filter_append]
      conv_rhs => rw [h2, pathComponentsAux_sep, List.filter_append]
      simp [pathComponentsAux]
    · rw [if_neg hsl]
      exact pathComponents_append_sep a b

lemma foldl_step_no_dots (B : List String) (hB : ∀ c ∈ B, c ≠ "..") (acc : List String) :
    B.foldl (fun acc c => if c = ".." then acc.dropLast else acc ++ [c]) acc = acc ++ B := by
  induction B generalizing acc with
  | nil => simp
  | cons c rest ih =>
    have hc : c ≠ ".." := hB c (by simp)
    have ih2 := ih (fun x hx => hB x (by simp [hx])) (acc ++ [c])
    simp only [List.foldl_cons, if_neg hc, ih2, List.append_assoc, List.singleton_append]

lemma resolveDots_append (A B : List String) (hB : ∀ c ∈ B, c ≠ "..") :
    resolveDots (A ++ B) = resolveDots A ++ B := by
  unfold resolveDots
  rw [List.foldl_append]
  exact foldl_step_no_dots B hB _

lemma isPrefixOf_append_self {α : Type} [BEq α] [LawfulBEq α] (A B : List α) :
    A.isPrefixOf (A ++ B) = true := by
  rw [List.isPrefixOf_iff_prefix]
  exact List.prefix_append A B

lemma insideRoot_of_components (root p : String) (B : List String)
    (hcomp : pathComponents p = pathComponents root ++ B)
    (hB : ∀ c ∈ B, c ≠ "..") : insideRoot root p = true := by
  unfold insideRoot
  rw [hcomp, resolveDots_append _ _ hB]
  exact isPrefixOf_append_self _ _

lemma digitChar_facts (k : Nat) (hk : k < 10) :
    Nat.digitChar k ≠ '/' ∧ Nat.digitChar k ≠ '.' := by
  interval_cases k <;> exact ⟨by decide, by decide⟩

lemma pathComponentsAux_no_slash (cs : List Char) (h : ∀ c ∈ cs, c ≠ '/') (acc : List Char) :
    pathComponentsAux acc cs = [String.mk (acc.reverse ++ cs)] := by
  induction cs generalizing acc with
  | nil => simp [pathComponentsAux]
  | cons c rest ih =>
    have hc : c ≠ '/' := h c (by simp)
    have ih2 := ih (fun x hx => h x (by simp [hx])) (c :: acc)
    simp [pathComponentsAux, hc, ih2]

lemma pathComponents_single (s : String) (h : ∀ c ∈ s.data, c ≠ '/')
    (hne : s ≠ "") (hdot : s ≠ ".") : pathComponents s = [s] := by
  unfold pathComponents
  rw [pathComponentsAux_no_slash s.data h []]
  have : String.mk ((([] : List Char)).reverse ++ s.data) = s := by
    simp
  rw [this]
  have hb1 : (s == "") = false := by simp [hne]
  have hb2 : (s == ".") = false := by simp [hdot]
  simp [List.filter, hb1, hb2]

lemma fmt2_no_slash (n : Nat) : ∀ c ∈ (fmt2 n).data, c ≠ '/' := by
  intro c hc
  have h1 := digitChar_facts (n / 10 % 10) (Nat.mod_lt _ (by norm_num))
  have h2 := digitChar_facts (n % 10) (Nat.mod_lt _ (by norm_num))
  simp only [fmt2, String.mk, List.mem_cons, List.not_mem_nil, or_false] at hc
  rcases hc with h | h
  · exact h ▸ h1.1
  · exact h ▸ h2.1

lemma fmt4_no_slash (n : Nat) : ∀ c ∈ (fmt4 n).data, c ≠ '/' := by
  intro c hc
  have h1 := digitChar_facts (n / 1000 % 10) (Nat.mod_lt _ (by norm_num))
  have h2 := digitChar_facts (n / 100 % 10) (Nat.mod_lt _ (by norm_num))
  have h3 := digitChar_facts (n / 10 % 10) (Nat.mod_lt _ (by norm_num))
  have h4 := digitChar_facts (n % 10) (Nat.mod_lt _ (by norm_num))
  simp only [fmt4, String.mk, List.mem_cons, List.not_mem_nil, or_false] at hc
  rcases hc with h | h | h | h
  · exact h ▸ h1.1
  · exact h ▸ h2.1
  · exact h ▸ h3.1
  · exact h ▸ h4.1

lemma ne_of_data_ne {s t : String} (h : s.data ≠ t.data) : s ≠ t := by
  intro he; exact h (he ▸ rfl)

lemma fmt2_components : ∀ n : Nat, pathComponents (fmt2 n) = [fmt2 n] := by
  intro n
  apply pathComponents_single _ (fmt2_no_slash n)
  · apply ne_of_data_ne; simp [fmt2]
  · apply ne_of_data_ne; simp [fmt2]

lemma fmt4_components : ∀ n : Nat, pathComponents (fmt4 n) = [fmt4 n] := by
  intro n
  apply pathComponents_single _ (fmt4_no_slash n)
  · apply ne_of_data_ne; simp [fmt4]
  · apply ne_of_data_ne; simp [fmt4]

lemma fmt2_ne_dotdot (n : Nat) : fmt2 n ≠ ".." := by
  apply ne_of_data_ne
  simp only [fmt2, String.mk]
  intro h
  have h1 := digitChar_facts (n / 10 % 10) (Nat.mod_lt _ (by norm_num))
  injection h with h2 h3
  exact h1.2 h2

lemma fmt4_ne_dotdot (n : Nat) : fmt4 n ≠ ".." := by
  apply ne_of_data_ne
  simp only [fmt4, String.mk]
  intro h
  injection h with h2 h3
  injection h3 with h4 h5
  injection h5

lemma fmt2_not_abs (n : Nat) : startsWithSlash (fmt2 n) = false := by
  have h1 := digitChar_facts (n / 10 % 10) (Nat.mod_lt _ (by norm_num))
  simp [startsWithSlash, fmt2, h1.1]

lemma fmt4_not_abs (n : Nat) : startsWithSlash (fmt4 n) = false := by
  have h1 := digitChar_facts (n / 1000 % 10) (Nat.mod_lt _ (by norm_num))
  simp [startsWithSlash, fmt4, h1.1]

lemma dropWhile_slash_headD (l : List Char) :
    ((l.dropWhile (fun c => c == '/')).headD ' ' == '/') = false := by
  induction l with
  | nil => decide
  | cons c rest ih =>
    by_cases h : c = '/'
    · simpa [List.dropWhile, h] using ih
    · have hb : (c == '/') = false := by simp [h]
      simp [List.dropWhile, hb]

lemma startsWithSlash_lstrip (s : String) : startsWithSlash (pyLstripSlash s) = false := by
  unfold startsWithSlash pyLstripSlash
  exact dropWhile_slash_headD s.data

lemma headD_slash_of_pref (h t : List Char) (hs : ((h ++ t).headD ' ' == '/') = false) :
    (h.headD ' ' == '/') = false := by
  cases h with
  | nil => decide
  | cons c cs => simpa using hs

lemma rev_dropWhile_pref (l : List Char) (p : Char → Bool) :
    l = (l.reverse.dropWhile p).reverse ++ (l.reverse.takeWhile p).reverse := by
  conv_lhs => rw [← List.reverse_reverse l,
    ← List.takeWhile_append_dropWhile (p := p) (l := l.reverse)]
  rw [List.reverse_append]

lemma startsWithSlash_dirname (s : String) (hs : startsWithSlash s = false) :
    startsWithSlash (pyDirname s) = false := by
  unfold startsWithSlash at hs
  unfold pyDirname
  have hpref := rev_dropWhile_pref s.data (fun c => c != '/')
  have hhead := headD_slash_of_pref _ _ (hpref ▸ hs)
  by_cases hall : ((s.data.reverse.dropWhile (fun c => c != '/')).reverse.all (fun c => c == '/')) = true
  · rw [if_pos hall]
    cases hd : (s.data.reverse.dropWhile (fun c => c != '/')).reverse with
    | nil => simp [startsWithSlash, hd]
    | cons c cs =>
      rw [hd] at hall hhead
      have hc : (c == '/') = true := by
        have := List.all_eq_true.mp hall c (by simp)
        exact this
      simp only [List.headD] at hhead
      rw [hc] at hhead
      cases hhead
  · rw [if_neg hall]
    have hpref2 := rev_dropWhile_pref (s.data.reverse.dropWhile (fun c => c != '/')).reverse (fun c => c == '/')
    have hhead2 := headD_slash_of_pref _ _ (hpref2 ▸ hhead)
    unfold startsWithSlash
    exact hhead2

lemma noDots_spec {s : String} (h : noDots s = true) :
    ∀ c ∈ pathComponents s, c ≠ ".." := by
  intro c hc
  have := List.all_eq_true.mp h c hc
  simpa using this

lemma base_components (root upload_name vsn : String) (site : Option String)
    (subfolder : String)
    (hup1 : startsWithSlash upload_name = false)
    (hvs1 : startsWithSlash (vsn ++ "-" ++ Curator.siteOrUnknown site) = false)
    (hsub1 : startsWithSlash subfolder = false) :
    pathComponents (Curator.build_output_base root upload_name vsn site subfolder) =
      pathComponents root ++
        (pathComponents upload_name ++
          pathComponents (vsn ++ "-" ++ Curator.siteOrUnknown site) ++
          pathComponents subfolder) := by
  unfold Curator.build_output_base
  rw [pathComponents_osJoin _ _ hsub1, pathComponents_osJoin _ _ hvs1,
    pathComponents_osJoin _ _ hup1]
  simp [List.append_assoc]

/-- C1 (refuted as stated): with `keep_original_path` on, an
`original_path` that passes the mount-prefix check but contains `..`
components yields a destination outside the configured root. -/
theorem C1_counterexample :
    Curator.resolve_output_path
      { value := "f.nc", meta_original_path := some "/data/../../../etc/passwd" }
      (Curator.build_output_base "/out" "up" "V" (some "S") "")
      ⟨2024, 7, 1⟩
      { job_name := "j", upload_name := "up", vsn := "V", start_date := "2024-07-01",
        end_date := "2024-07-01", date_regex := none, date_format := none,
        extension := none, group_by_date := true, keep_original_path := true,
        mount_dir := "/data", subfolder := "", rename_function := none }
      = some "/out/up/V-S/../../../etc"
    ∧ insideRoot "/out" "/out/up/V-S/../../../etc" = false := by
  exact ⟨rfl, by decide⟩

/-- C1 (amended): with clean configuration components (no absolute and no
`..` segments in `upload_name`, the `vsn-site` pair and `subfolder`) and
a record whose mount-stripped original path navigates downward only, the
resolver stays inside the configured root; and whenever mirroring is
requested and the record's original path does not start with the mount
prefix, the resolver returns `none`, unconditionally. -/
theorem C1_path_containment
    (root upload_name vsn : String) (site : Option String) (subfolder : String)
    (row : Curator.Row) (date : DateT) (settings : Curator.Settings)
    (hup1 : startsWithSlash upload_name = false) (hup2 : noDots upload_name = true)
    (hvs1 : startsWithSlash (vsn ++ "-" ++ Curator.siteOrUnknown site) = false)
    (hvs2 : noDots (vsn ++ "-" ++ Curator.siteOrUnknown site) = true)
    (hsub1 : startsWithSlash subfolder = false) (hsub2 : noDots subfolder = true)
    (hrel : ∀ orig, row.meta_original_path = some orig →
        noDots (pyDirname (pyLstripSlash (dropChars orig (strLen settings.mount_dir)))) = true) :
    (settings.keep_original_path = true →
      ∀ orig, row.meta_original_path = some orig →
        pyStartsWith orig settings.mount_dir = false →
        Curator.resolve_output_path row
          (Curator.build_output_base root upload_name vsn site subfolder) date settings = none)
    ∧
    (∀ p, Curator.resolve_output_path row
        (Curator.build_output_base root upload_name vsn site subfolder) date settings = some p →
        insideRoot root p = true) := by
  have hbase := base_components root upload_name vsn site subfolder hup1 hvs1 hsub1
  constructor
  · intro hk orig ho hns
    simp [Curator.resolve_output_path, hk, ho, hns]
  · intro p hp
    unfold Curator.resolve_output_path at hp
    by_cases hk : settings.keep_original_path
    · rw [if_pos hk] at hp
      cases ho : row.meta_original_path with
      | none => rw [ho] at hp; cases hp
      | some orig =>
        rw [ho] at hp
        dsimp only at hp
        by_cases hsw : pyStartsWith orig settings.mount_dir
        · rw [if_pos hsw] at hp
          have hpeq : p = osJoin (Curator.build_output_base root upload_name vsn site subfolder)
              (pyDirname (pyLstripSlash (dropChars orig (strLen settings.mount_dir)))) := by
            exact (Option.some.injEq _ _).mp hp.symm
          have hdir1 : startsWithSlash
              (pyDirname (pyLstripSlash (dropChars orig (strLen settings.mount_dir)))) = false :=
            startsWithSlash_dirname _ (startsWithSlash_lstrip _)
          have hcomp : pathComponents p =
              pathComponents root ++
                ((pathComponents upload_name ++
                  pathComponents (vsn ++ "-" ++ Curator.siteOrUnknown site) ++
                  pathComponents subfolder) ++
                  pathComponents (pyDirname (pyLstripSlash (dropChars orig (strLen settings.mount_dir))))) := by
            rw [hpeq, pathComponents_osJoin _ _ hdir1, hbase, List.append_assoc]
          apply insideRoot_of_components root p _ hcomp
          intro c hc
          simp only [List.mem_append] at hc
          rcases hc with ((hc | hc) | hc) | hc
          · exact noDots_spec hup2 c hc
          · exact noDots_spec hvs2 c hc
          · exact noDots_spec hsub2 c hc
          · exact noDots_spec (hrel orig ho) c hc
        · rw [if_neg hsw] at hp; cases hp
    · rw [if_neg hk] at hp
      by_cases hg : settings.group_by_date
      · rw [if_pos hg] at hp
        have hpeq : p = Curator._create_dated_folder
            (Curator.build_output_base root upload_name vsn site subfolder) date := by
          exact (Option.some.injEq _ _).mp hp.symm
        have hcomp : pathComponents p =
            pathComponents root ++
              ((pathComponents upload_name ++
                pathComponents (vsn ++ "-" ++ Curator.siteOrUnknown site) ++
                pathComponents subfolder) ++
                ([fmt4 date.year] ++ [fmt2 date.month] ++ [fmt2 date.day])) := by
          rw [hpeq]
          unfold Curator._create_dated_folder
          rw [pathComponents_osJoin _ _ (fmt2_not_abs _),
            pathComponents_osJoin _ _ (fmt2_not_abs _),
            pathComponents_osJoin _ _ (fmt4_not_abs _),
            hbase, fmt4_components, fmt2_components, fmt2_components]
          simp [List.append_assoc]
        apply insideRoot_of_components root p _ hcomp
        intro c hc
        simp only [List.mem_append, List.mem_singleton] at hc
        rcases hc with ((hc | hc) | hc) | ((hc | hc) | hc)
        · exact noDots_spec hup2 c hc
        · exact noDots_spec hvs2 c hc
        · exact noDots_spec hsub2 c hc
        · exact hc ▸ fmt4_ne_dotdot _
        · exact hc ▸ fmt2_ne_dotdot _
        · exact hc ▸ fmt2_ne_dotdot _
      · rw [if_neg hg] at hp
        have hpeq : p = Curator.build_output_base root upload_name vsn site subfolder := by
          exact (Option.some.injEq _ _).mp hp.symm
        have hcomp : pathComponents p =
            pathComponents root ++
              (pathComponents upload_name ++
                pathComponents (vsn ++ "-" ++ Curator.siteOrUnknown site) ++
                pathComponents subfolder) := by
          rw [hpeq, hbase]
        apply insideRoot_of_components root p _ hcomp
        intro c hc
        simp only [List.mem_append] at hc
        rcases hc with (hc | hc) | hc
        · exact noDots_spec hup2 c hc
        · exact noDots_spec hvs2 c hc
        · exact noDots_spec hsub2 c hc

/-- C1 witness: a concrete record and configuration on which the amended
containment theorem applies: the resolver's output for it lies inside
the root. -/
theorem C1_path_containment_witness :
    insideRoot "/out" "/out/up/V-S/raw/2024/07/01" = true := by
  exact (C1_path_containment "/out" "up" "V" (some "S") ""
    { value := "f.nc", meta_original_path := some "/data/raw/2024/07/01/foo.nc" }
    ⟨2024, 7, 1⟩
    { job_name := "j", upload_name := "up", vsn := "V", start_date := "2024-07-01",
      end_date := "2024-07-01", date_regex := none, date_format := none,
      extension := none, group_by_date := true, keep_original_path := true,
      mount_dir := "/data", subfolder := "", rename_function := none }
    (by decide) (by decide) (by decide) (by decide) (by decide) (by decide)
    (by intro orig ho; cases ho; decide)).2 "/out/up/V-S/raw/2024/07/01" (by rfl)

lemma pyStartsWith_append (a b : String) : pyStartsWith (a ++ b) a = true := by
  unfold pyStartsWith
  rw [String.data_append]
  exact isPrefixOf_append_self _ _

lemma dropChars_append (a b : String) : dropChars (a ++ b) (strLen a) = b := by
  unfold dropChars strLen
  rw [String.data_append, List.drop_left]

lemma lstrip_no_slash (t : String) (ht : startsWithSlash t = false) :
    pyLstripSlash t = t := by
  unfold pyLstripSlash
  apply String.ext
  show t.data.dropWhile (fun c => c == '/') = t.data
  unfold startsWithSlash at ht
  cases hd : t.data with
  | nil => rfl
  | cons c cs =>
    rw [hd] at ht
    simp only [List.headD] at ht
    simp [List.dropWhile_cons, ht]

lemma lstrip_slash_cons (t : String) (ht : startsWithSlash t = false) :
    pyLstripSlash (String.mk ('/' :: t.data)) = t := by
  have h2 : t.data.dropWhile (fun c => c == '/') = t.data :=
    congrArg String.data (lstrip_no_slash t ht)
  apply String.ext
  show ('/' :: t.data).dropWhile (fun c => c == '/') = t.data
  rw [List.dropWhile_cons]
  simpa using h2

/-- C2 (refuted as stated): for the claim's own scenario the resolved
destination is the mirrored path under the job's output base
`root/up/V-S`, not directly under the configured root. -/
theorem C2_counterexample :
    Curator.resolve_output_path
      { value := "foo.nc", meta_original_path := some "/data/raw/2024/07/01/foo.nc" }
      (Curator.build_output_base "root" "up" "V" (some "S") "")
      ⟨2024, 7, 1⟩
      { job_name := "j", upload_name := "up", vsn := "V", start_date := "2024-07-01",
        end_date := "2024-07-01", date_regex := none, date_format := none,
        extension := none, group_by_date := true, keep_original_path := true,
        mount_dir := "/data", subfolder := "", rename_function := none }
      = some "root/up/V-S/raw/2024/07/01"
    ∧ ("root/up/V-S/raw/2024/07/01" : String) ≠ "root/raw/2024/07/01" := by
  exact ⟨rfl, by decide⟩

/-- C2 (amended): with mirroring on and an original path of the shape
`mount_dir ++ "/" ++ tail`, the resolver returns the containing
directory of `tail` placed under the job's output base
`root/upload_name/vsn-site/subfolder` (not directly under `root`). -/
theorem C2_mirror_destination
    (root upload_name vsn : String) (site : Option String) (subfolder : String)
    (value : String) (date : DateT) (settings : Curator.Settings) (tail : String)
    (hk : settings.keep_original_path = true)
    (htail : startsWithSlash tail = false)
    (hup1 : startsWithSlash upload_name = false)
    (hvs1 : startsWithSlash (vsn ++ "-" ++ Curator.siteOrUnknown site) = false)
    (hsub1 : startsWithSlash subfolder = false) :
    ∃ p, Curator.resolve_output_path
        { value := value, meta_original_path := some (settings.mount_dir ++ "/" ++ tail) }
        (Curator.build_output_base root upload_name vsn site subfolder) date settings = some p
      ∧ pathComponents p =
          pathComponents root ++ pathComponents upload_name ++
          pathComponents (vsn ++ "-" ++ Curator.siteOrUnknown site) ++
          pathComponents subfolder ++ pathComponents (pyDirname tail) := by
  have hdata : (settings.mount_dir ++ "/" ++ tail).data =
      settings.mount_dir.data ++ ('/' :: tail.data) := by
    simp [String.data_append]
  have hsw : pyStartsWith (settings.mount_dir ++ "/" ++ tail) settings.mount_dir = true := by
    unfold pyStartsWith
    rw [hdata]
    exact isPrefixOf_append_self _ _
  have hdrop : dropChars (settings.mount_dir ++ "/" ++ tail) (strLen settings.mount_dir) =
      String.mk ('/' :: tail.data) := by
    unfold dropChars strLen
    rw [hdata, List.drop_left]
  have hrel : pyLstripSlash (dropChars (settings.mount_dir ++ "/" ++ tail)
      (strLen settings.mount_dir)) = tail := by
    rw [hdrop]
    exact lstrip_slash_cons tail htail
  refine ⟨osJoin (Curator.build_output_base root upload_name vsn site subfolder)
    (pyDirname tail), ?_, ?_⟩
  · unfold Curator.resolve_output_path
    rw [if_pos hk]
    dsimp only
    rw [if_pos hsw, hrel]
  · rw [pathComponents_osJoin _ _ (startsWithSlash_dirname tail htail),
      base_components root upload_name vsn site subfolder hup1 hvs1 hsub1]
    simp [List.append_assoc]

/-- C2 witness: the claim's scenario record, resolved under the base
`root/up/V-S`. -/
theorem C2_mirror_destination_witness :
    ∃ p, Curator.resolve_output_path
        { value := "foo.nc", meta_original_path := some ("/data" ++ "/" ++ "raw/2024/07/01/foo.nc") }
        (Curator.build_output_base "root" "up" "V" (some "S") "") ⟨2024, 7, 1⟩
        { job_name := "j", upload_name := "up", vsn := "V", start_date := "2024-07-01",
          end_date := "2024-07-01", date_regex := none, date_format := none,
          extension := none, group_by_date := true, keep_original_path := true,
          mount_dir := "/data", subfolder := "", rename_function := none } = some p
      ∧ pathComponents p =
          pathComponents "root" ++ pathComponents "up" ++
          pathComponents ("V" ++ "-" ++ Curator.siteOrUnknown (some "S")) ++
          pathComponents "" ++ pathComponents (pyDirname "raw/2024/07/01/foo.nc") := by
  exact C2_mirror_destination "root" "up" "V" (some "S") "" "foo.nc" ⟨2024, 7, 1⟩
    { job_name := "j", upload_name := "up", vsn := "V", start_date := "2024-07-01",
      end_date := "2024-07-01", date_regex := none, date_format := none,
      extension := none, group_by_date := true, keep_original_path := true,
      mount_dir := "/data", subfolder := "", rename_function := none }
    "raw/2024/07/01/foo.nc" rfl (by decide) (by decide) (by decide) (by decide)

/-- C4 (refuted as stated): for the valid instant pair 23:00 of day 0 and
01:00 of day 1 (in seconds), start is not after end, the calendar-day
difference predicts two windows, but the loop yields one. -/
theorem C4_counterexample :
    (82800 : Nat) ≤ 90000
    ∧ (Curator.date_range_loop 82800 90000).length = 1
    ∧ 90000 / 86400 - 82800 / 86400 + 1 = 2
    ∧ (1 : Nat) ≠ 2 := by
  exact ⟨by decide, by decide, by decide, by decide⟩

/-- C4 (amended): for midnight-aligned instants (which is what the job
runner passes, since configured dates carry no time of day) with
start at most end, the loop yields exactly one window per calendar day,
in ascending order, each spanning 00:00:00 to 23:59:59 of its day; and
an end before the start yields the empty list rather than an error. -/
theorem C4_day_windows (s e : Nat) (hs : s % 86400 = 0) (he : e % 86400 = 0) :
    (e < s → Curator.date_range_loop s e = [])
    ∧ (s ≤ e →
        (Curator.date_range_loop s e).length = e / 86400 - s / 86400 + 1
        ∧ ∀ i, i < e / 86400 - s / 86400 + 1 →
            (Curator.date_range_loop s e)[i]? =
              some ((s / 86400 + i) * 86400, (s / 86400 + i) * 86400 + 86399)) := by
  constructor
  · intro hlt
    unfold Curator.date_range_loop Curator.pdDateRange
    rw [if_neg (by omega)]
    rfl
  · intro hle
    obtain ⟨S, hS⟩ : ∃ S, s = 86400 * S := ⟨s / 86400, by omega⟩
    obtain ⟨E, hE⟩ : ∃ E, e = 86400 * E := ⟨e / 86400, by omega⟩
    have hSE : S ≤ E := by omega
    have hdivs : s / 86400 = S := by omega
    have hdive : e / 86400 = E := by omega
    have hlen : (e - s) / 86400 = E - S := by
      have : e - s = 86400 * (E - S) := by omega
      rw [this, Nat.mul_div_cancel_left _ (by norm_num)]
    unfold Curator.date_range_loop Curator.pdDateRange
    rw [if_pos hle, hlen]
    constructor
    · simp [hdivs, hdive]
    · intro i hi
      rw [hdivs, hdive] at hi
      rw [hdivs]
      simp only [List.getElem?_map, List.getElem?_range, hi, if_pos]
      have hday : (s + i * 86400) / 86400 = S + i := by
        rw [hS]
        rw [show 86400 * S + i * 86400 = 86400 * (S + i) by ring]
        exact Nat.mul_div_cancel_left _ (by norm_num)
      simp [hday]

/-- C4 witness: three calendar days from epoch midnight to midnight two
days later. -/
theorem C4_day_windows_witness :
    (Curator.date_range_loop 0 172800).length = 172800 / 86400 - 0 / 86400 + 1 := by
  exact ((C4_day_windows 0 172800 (by decide) (by decide)).2 (by decide)).1

/-- C5 (refuted as stated): a config with two jobs whose first job lacks
`upload_name` makes the whole run abort with `KeyError`; the second job
is never started, so a missing mandatory key is fatal to the run. -/
theorem C5_counterexample :
    Curator.run_download_jobs
      { username := some "u", password := some "p",
        jobs := [{ job := some "j1", upload_name := none, vsn := some "W01",
                   start_date := some "2024-07-01", end_date := none, date_regex := none,
                   date_format := none, extension := .absent, group_by_date := none,
                   keep_original_path := none, mount_dir := none, subfolder := none,
                   waggle_filename_timestamp := none },
                 { job := some "j2", upload_name := some "u2", vsn := some "W02",
                   start_date := some "2024-07-01", end_date := none, date_regex := none,
                   date_format := none, extension := .absent, group_by_date := none,
                   keep_original_path := none, mount_dir := none, subfolder := none,
                   waggle_filename_timestamp := none }] }
      none ⟨2024, 7, 15⟩ = Except.error (Curator.KeyErr.key "upload_name") := by
  rfl

lemma runJobsLoop_error (selected : Option String) (now : DateT)
    (pre : List Curator.Job) (bad : Curator.Job) (post : List Curator.Job)
    (e : Curator.KeyErr)
    (hpre : ∀ j ∈ pre, ∃ s, Curator.parse_job_settings j now = Except.ok s)
    (hbad : Curator.parse_job_settings bad now = Except.error e) :
    Curator.runJobsLoop selected now (pre ++ bad :: post) = Except.error e := by
  induction pre with
  | nil => simp [Curator.runJobsLoop, hbad]
  | cons j rest ih =>
    obtain ⟨s, hs⟩ := hpre j (by simp)
    have ih2 := ih (fun x hx => hpre x (by simp [hx]))
    simp [Curator.runJobsLoop, hs, ih2]

/-- C5 (amended): with valid credentials, a job whose configuration is
missing a mandatory key raises an uncaught `KeyError` that aborts the
entire run; jobs after it are not processed.  Only missing credentials
are handled non-fatally. -/
theorem C5_missing_key_aborts_run
    (user pass : String) (hu : user ≠ "") (hp : pass ≠ "")
    (selected : Option String) (now : DateT)
    (pre : List Curator.Job) (bad : Curator.Job) (post : List Curator.Job)
    (e : Curator.KeyErr)
    (hpre : ∀ j ∈ pre, ∃ s, Curator.parse_job_settings j now = Except.ok s)
    (hbad : Curator.parse_job_settings bad now = Except.error e) :
    Curator.run_download_jobs
      { username := some user, password := some pass, jobs := pre ++ bad :: post }
      selected now = Except.error e := by
  unfold Curator.run_download_jobs
  dsimp only
  rw [if_neg hu]
  have hpd : (!decide (pass = "")) = true := by simp [hp]
  rw [if_pos hpd]
  exact runJobsLoop_error selected now pre bad post e hpre hbad

/-- C5 witness: a good job followed by a job missing `vsn`, with a third
job behind it that is never reached. -/
theorem C5_missing_key_aborts_run_witness :
    Curator.run_download_jobs
      { username := some "u", password := some "p",
        jobs := [{ job := some "j0", upload_name := some "u0", vsn := some "W00",
                   start_date := some "2024-07-01", end_date := none, date_regex := none,
                   date_format := none, extension := .absent, group_by_date := none,
                   keep_original_path := none, mount_dir := none, subfolder := none,
                   waggle_filename_timestamp := none }] ++
                { job := some "j1", upload_name := some "u1", vsn := none,
                  start_date := some "2024-07-01", end_date := none, date_regex := none,
                  date_format := none, extension := .absent, group_by_date := none,
                  keep_original_path := none, mount_dir := none, subfolder := none,
                  waggle_filename_timestamp := none } ::
                [{ job := some "j2", upload_name := some "u2", vsn := some "W02",
                   start_date := some "2024-07-01", end_date := none, date_regex := none,
                   date_format := none, extension := .absent, group_by_date := none,
                   keep_original_path := none, mount_dir := none, subfolder := none,
                   waggle_filename_timestamp := none }] }
      none ⟨2024, 7, 15⟩ = Except.error (Curator.KeyErr.key "vsn") := by
  exact C5_missing_key_aborts_run "u" "p" (by decide) (by decide) none ⟨2024, 7, 15⟩
    _ _ _ _ (by intro j hj; rw [List.mem_singleton] at hj; subst hj; exact ⟨_, rfl⟩) rfl

/-- C6 (refuted as stated): at a run starting on 2024-07-15 UTC, a job
without `end_date` gets end date 2024-07-15 (today), not the claimed
2024-07-14 (yesterday). -/
theorem C6_counterexample :
    (Curator.parse_job_settings
      { job := some "j", upload_name := some "u", vsn := some "W", start_date := some "2024-07-01",
        end_date := none, date_regex := none, date_format := none, extension := .absent,
        group_by_date := none, keep_original_path := none, mount_dir := none, subfolder := none,
        waggle_filename_timestamp := none } ⟨2024, 7, 15⟩).map (fun s => s.end_date)
      = Except.ok "2024-07-15"
    ∧ strftimeDate ⟨2024, 7, 14⟩ = "2024-07-14"
    ∧ ("2024-07-15" : String) ≠ "2024-07-14" := by
  exact ⟨rfl, rfl, by decide⟩

/-- C6 (amended): for every job whose configuration omits `end_date`
(and has the mandatory keys), the end date defaults to the current UTC
calendar day — today, not yesterday. -/
theorem C6_end_date_defaults_today
    (jn un vs sd : String) (dr df md sf : Option String) (ev : Curator.ExtVal)
    (gb ko wt : Option Bool) (now : DateT) :
    ∃ s, Curator.parse_job_settings
        { job := some jn, upload_name := some un, vsn := some vs, start_date := some sd,
          end_date := none, date_regex := dr, date_format := df, extension := ev,
          group_by_date := gb, keep_original_path := ko, mount_dir := md,
          subfolder := sf, waggle_filename_timestamp := wt } now = Except.ok s
      ∧ s.end_date = strftimeDate now := by
  exact ⟨_, rfl, rfl⟩

/-- C6 witness: a concrete job without `end_date` parsed at a concrete
current date. -/
theorem C6_end_date_defaults_today_witness :
    ∃ s, Curator.parse_job_settings
        { job := some "j", upload_name := some "u", vsn := some "W", start_date := some "2024-07-01",
          end_date := none, date_regex := none, date_format := none, extension := .absent,
          group_by_date := none, keep_original_path := none, mount_dir := none,
          subfolder := none, waggle_filename_timestamp := none } ⟨2025, 1, 1⟩ = Except.ok s
      ∧ s.end_date = strftimeDate ⟨2025, 1, 1⟩ := by
  exact C6_end_date_defaults_today "j" "u" "W" "2024-07-01" none none none none
    .absent none none none ⟨2025, 1, 1⟩

lemma strptimeYmd_error_shape (s : String) (e : Curator.PyErr)
    (he : Curator.strptimeYmd s = Except.error e) : ∃ m, e = Curator.PyErr.valueError m := by
  unfold Curator.strptimeYmd at he
  split at he
  · dsimp only at he
    split at he
    · split at he
      · cases he
      · injection he with h; exact ⟨_, h.symm⟩
    · injection he with h; exact ⟨_, h.symm⟩
  · injection he with h; exact ⟨_, h.symm⟩

/-- C7 (refuted as stated): the date string 20241301 (month 13) matches
the literal pattern but cannot be parsed; the function returns `none`
and logs at ERROR level, not at the claimed warning level. -/
theorem C7_counterexample :
    Curator._extract_date_from_filename "x20241301y" "20241301" =
      Except.ok (none,
        [(Curator.LogLevel.error, "[ERROR] Failed to parse date from filename: x20241301y")])
    ∧ Curator.LogLevel.error ≠ Curator.LogLevel.warning := by
  exact ⟨rfl, by decide⟩

/-- C7 (amended): extraction never raises (for a valid literal pattern
and the embedded format): a missing match yields `none` logged at
warning level; a match that fails to parse yields `none` logged at
error level (not warning); a parsable match yields the date with no
log. -/
theorem C7_extraction_fail_closed (filename pat : String) :
    (∃ r, Curator._extract_date_from_filename filename pat = Except.ok r)
    ∧ (Curator.containsSub pat.data filename.data = false →
        Curator._extract_date_from_filename filename pat =
          Except.ok (none,
            [(Curator.LogLevel.warning, "[WARN] No date found in filename: " ++ filename)]))
    ∧ (∀ em, Curator.containsSub pat.data filename.data = true →
        Curator.strptimeYmd pat = Except.error em →
        Curator._extract_date_from_filename filename pat =
          Except.ok (none,
            [(Curator.LogLevel.error, "[ERROR] Failed to parse date from filename: " ++ filename)]))
    ∧ (∀ d, Curator.containsSub pat.data filename.data = true →
        Curator.strptimeYmd pat = Except.ok d →
        Curator._extract_date_from_filename filename pat = Except.ok (some d, [])) := by
  refine ⟨?_, ?_, ?_, ?_⟩
  · by_cases hc : Curator.containsSub pat.data filename.data
    · cases hs : Curator.strptimeYmd pat with
      | ok d =>
        exact ⟨(some d, []), by
          unfold Curator._extract_date_from_filename Curator.extractBody Curator.reSearchLiteral
          simp [hc, hs]⟩
      | error e =>
        obtain ⟨m, hm⟩ := strptimeYmd_error_shape pat e hs
        subst hm
        exact ⟨(none,
            [(Curator.LogLevel.error, "[ERROR] Failed to parse date from filename: " ++ filename)]), by
          unfold Curator._extract_date_from_filename Curator.extractBody Curator.reSearchLiteral
          simp [hc, hs]⟩
    · rw [Bool.not_eq_true] at hc
      exact ⟨(none,
          [(Curator.LogLevel.warning, "[WARN] No date found in filename: " ++ filename)]), by
        unfold Curator._extract_date_from_filename Curator.extractBody Curator.reSearchLiteral
        simp [hc]⟩
  · intro hcf
    unfold Curator._extract_date_from_filename Curator.extractBody Curator.reSearchLiteral
    simp [hcf]
  · intro em hct hse
    obtain ⟨m, hm⟩ := strptimeYmd_error_shape pat em hse
    subst hm
    unfold Curator._extract_date_from_filename Curator.extractBody Curator.reSearchLiteral
    simp [hct, hse]
  · intro d hct hsk
    unfold Curator._extract_date_from_filename Curator.extractBody Curator.reSearchLiteral
    simp [hct, hsk]

/-- C7 witness: a filename without the pattern is reported as `none`
with a warning-level log and no exception. -/
theorem C7_extraction_fail_closed_witness :
    Curator._extract_date_from_filename "ab" "zz" =
      Except.ok (none, [(Curator.LogLevel.warning, "[WARN] No date found in filename: " ++ "ab")]) := by
  exact (C7_extraction_fail_closed "ab" "zz").2.1 (by decide)

namespace Fetcher

lemma uniqAux_spec (l : List String) : ∀ seen : List String,
    (uniqAux seen l).Nodup ∧ ∀ x ∈ uniqAux seen l, x ∉ seen := by
  induction l with
  | nil => intro seen; exact ⟨List.nodup_nil, by simp [uniqAux]⟩
  | cons x xs ih =>
    intro seen
    by_cases hx : x ∈ seen
    · have := ih seen
      simpa [uniqAux, hx] using this
    · have h2 := ih (x :: seen)
      constructor
      · rw [uniqAux, if_neg hx]
        refine List.nodup_cons.mpr ⟨?_, h2.1⟩
        intro hmem
        exact h2.2 x hmem (by simp)
      · intro y hy
        rw [uniqAux, if_neg hx] at hy
        rcases List.mem_cons.mp hy with h | h
        · exact h ▸ hx
        · intro hys
          exact h2.2 y h (by simp [hys])

lemma uniqAux_nodup (l : List String) : (uniqAux [] l).Nodup :=
  (uniqAux_spec l []).1

lemma candidatesOf_nodup (extension_filter : Option String) (values : List String) :
    (candidatesOf extension_filter values).Nodup := by
  unfold candidatesOf
  exact uniqAux_nodup _

lemma processUrls_outcome_urls (remote : String → Option String) (destination : String)
    (group_by_date : Bool) (extract_date : String → Option String) (skip_if_exists : Bool)
    (rename_function : Option (String → String)) (dry_run : Bool) (urls : List String) :
    ∀ fs : FS,
      (processUrls remote destination group_by_date extract_date skip_if_exists
        rename_function dry_run fs urls).outcomes.map (fun o => o.url) = urls := by
  induction urls with
  | nil => intro fs; rfl
  | cons u rest ih =>
    intro fs
    unfold processUrls
    cases hf : folderOf group_by_date extract_date destination (filenameOf rename_function u) with
    | none => simp [hf, ih]
    | some folder =>
      by_cases hs : skip_if_exists = true ∧ fileExists (makedirs fs folder)
          (osJoin folder (filenameOf rename_function u)) = true
      · obtain ⟨hs1, hs2⟩ := hs
        subst hs1
        simp [hf, hs2, ih]
      · by_cases hd : dry_run = true
        · subst hd
          simp [hf, hs, ih]
        · rw [Bool.not_eq_true] at hd
          subst hd
          cases hfr : _fetch_and_save_file remote u
            (osJoin folder (filenameOf rename_function u)) (makedirs fs folder) with
          | mk fs2 ok =>
            cases ok <;> simp [hf, hs, hfr, ih]

lemma processUrls_saved_outcomes (remote : String → Option String) (destination : String)
    (group_by_date : Bool) (extract_date : String → Option String) (skip_if_exists : Bool)
    (rename_function : Option (String → String)) (dry_run : Bool) (urls : List String) :
    ∀ fs : FS,
      (processUrls remote destination group_by_date extract_date skip_if_exists
        rename_function dry_run fs urls).saved =
      ((processUrls remote destination group_by_date extract_date skip_if_exists
        rename_function dry_run fs urls).outcomes.filter
          (fun o => o.kind == OutKind.downloaded || o.kind == OutKind.dryRunWouldDownload)).filterMap
        (fun o => o.path) := by
  induction urls with
  | nil => intro fs; rfl
  | cons u rest ih =>
    intro fs
    unfold processUrls
    cases hf : folderOf group_by_date extract_date destination (filenameOf rename_function u) with
    | none => simp [hf, ih]
    | some folder =>
      by_cases hs : skip_if_exists = true ∧ fileExists (makedirs fs folder)
          (osJoin folder (filenameOf rename_function u)) = true
      · obtain ⟨hs1, hs2⟩ := hs
        subst hs1
        simp [hf, hs2, ih]
      · by_cases hd : dry_run = true
        · subst hd
          simp [hf, hs, ih]
        · rw [Bool.not_eq_true] at hd
          subst hd
          cases hfr : _fetch_and_save_file remote u
            (osJoin folder (filenameOf rename_function u)) (makedirs fs folder) with
          | mk fs2 ok =>
            cases ok <;> simp [hf, hs, hfr, ih]

lemma processUrls_netCalls_sublist (remote : String → Option String) (destination : String)
    (group_by_date : Bool) (extract_date : String → Option String) (skip_if_exists : Bool)
    (rename_function : Option (String → String)) (dry_run : Bool) (urls : List String) :
    ∀ fs : FS,
      ((processUrls remote destination group_by_date extract_date skip_if_exists
        rename_function dry_run fs urls).netCalls.map Prod.fst).Sublist urls := by
  induction urls with
  | nil => intro fs; exact List.Sublist.refl _
  | cons u rest ih =>
    intro fs
    unfold processUrls
    cases hf : folderOf group_by_date extract_date destination (filenameOf rename_function u) with
    | none => simpa [hf] using List.Sublist.cons u (ih fs)
    | some folder =>
      by_cases hs : skip_if_exists = true ∧ fileExists (makedirs fs folder)
          (osJoin folder (filenameOf rename_function u)) = true
      · obtain ⟨hs1, hs2⟩ := hs
        subst hs1
        simpa [hf, hs2] using List.Sublist.cons u (ih _)
      · by_cases hd : dry_run = true
        · subst hd
          simpa [hf, hs] using List.Sublist.cons u (ih _)
        · rw [Bool.not_eq_true] at hd
          subst hd
          cases hfr : _fetch_and_save_file remote u
            (osJoin folder (filenameOf rename_function u)) (makedirs fs folder) with
          | mk fs2 ok =>
            cases ok
            · simpa [hf, hs, hfr] using List.Sublist.cons₂ u (ih fs2)
            · simpa [hf, hs, hfr] using List.Sublist.cons₂ u (ih fs2)

end Fetcher

/-- C9: each distinct source URL is processed at most once per call:
the outcome list contains one entry per deduplicated URL (so the URL
list underlying the outcomes has no duplicates), every network contact
corresponds to one of those URLs with no URL contacted twice, and the
returned `saved_files` list carries at most one entry per outcome (it
is exactly the destination paths of the `downloaded` and dry-run
outcomes). -/
theorem C9_distinct_urls_once (remote : String → Option String) (values : List String)
    (destination : String) (extension_filter : Option String) (group_by_date : Bool)
    (skip_if_exists : Bool) (rename_function : Option (String → String))
    (date_regex : Option (String → Option String)) (dry_run : Bool) (fs : Fetcher.FS)
    (r : Fetcher.RunResult)
    (h : Fetcher.download_beehive_files remote values destination extension_filter group_by_date
      skip_if_exists rename_function date_regex dry_run fs = Except.ok r) :
    (r.outcomes.map (fun o => o.url)).Nodup
    ∧ (r.netCalls.map Prod.fst).Nodup
    ∧ r.saved = (r.outcomes.filter
        (fun o => o.kind == Fetcher.OutKind.downloaded
          || o.kind == Fetcher.OutKind.dryRunWouldDownload)).filterMap (fun o => o.path) := by
  unfold Fetcher.download_beehive_files at h
  by_cases hempty : values.isEmpty = true
  · rw [if_pos hempty] at h
    injection h with h
    subst h
    exact ⟨List.nodup_nil, List.nodup_nil, rfl⟩
  · rw [if_neg (by simpa using hempty)] at h
    by_cases hg : (group_by_date && date_regex.isNone) = true
    · rw [if_pos hg] at h
      cases h
    · rw [if_neg (by simpa using hg)] at h
      injection h with h
      subst h
      refine ⟨?_, ?_, ?_⟩
      · rw [Fetcher.processUrls_outcome_urls]
        exact Fetcher.candidatesOf_nodup extension_filter values
      · exact List.Nodup.sublist (Fetcher.processUrls_netCalls_sublist _ _ _ _ _ _ _ _ _)
          (Fetcher.candidatesOf_nodup extension_filter values)
      · exact Fetcher.processUrls_saved_outcomes _ _ _ _ _ _ _ _ _

/-- C9 witness: a concrete call with a duplicated URL yields one outcome,
one network call and one saved entry for it. -/
theorem C9_distinct_urls_once_witness :
    ((Fetcher.RunResult.mk
        ⟨[("d/x.nc", "c")], ["d"]⟩ ["d/x.nc"]
        [⟨"http://a/x.nc", some "d/x.nc", Fetcher.OutKind.downloaded⟩]
        [("http://a/x.nc", "d/x.nc")]).outcomes.map (fun o => o.url)).Nodup
    ∧ (((Fetcher.RunResult.mk
        ⟨[("d/x.nc", "c")], ["d"]⟩ ["d/x.nc"]
        [⟨"http://a/x.nc", some "d/x.nc", Fetcher.OutKind.downloaded⟩]
        [("http://a/x.nc", "d/x.nc")]).netCalls.map Prod.fst)).Nodup
    ∧ (Fetcher.RunResult.mk
        ⟨[("d/x.nc", "c")], ["d"]⟩ ["d/x.nc"]
        [⟨"http://a/x.nc", some "d/x.nc", Fetcher.OutKind.downloaded⟩]
        [("http://a/x.nc", "d/x.nc")]).saved =
      ((Fetcher.RunResult.mk
        ⟨[("d/x.nc", "c")], ["d"]⟩ ["d/x.nc"]
        [⟨"http://a/x.nc", some "d/x.nc", Fetcher.OutKind.downloaded⟩]
        [("http://a/x.nc", "d/x.nc")]).outcomes.filter
          (fun o => o.kind == Fetcher.OutKind.downloaded
            || o.kind == Fetcher.OutKind.dryRunWouldDownload)).filterMap (fun o => o.path) := by
  exact C9_distinct_urls_once (fun _ => some "c") ["http://a/x.nc", "http://a/x.nc"] "d"
    none false true none none false ⟨[], []⟩ _ (by rfl)

namespace Fetcher

lemma targetOf_of_folder (group_by_date : Bool) (extract_date : String → Option String)
    (destination : String) (rename_function : Option (String → String)) (u folder : String)
    (hf : folderOf group_by_date extract_date destination (filenameOf rename_function u) = some folder) :
    targetOf group_by_date extract_date destination rename_function u =
      some (osJoin folder (filenameOf rename_function u)) := by
  unfold targetOf
  rw [hf]
  rfl

lemma processUrls_failed_not_saved (remote : String → Option String) (destination : String)
    (group_by_date : Bool) (extract_date : String → Option String) (skip_if_exists : Bool)
    (rename_function : Option (String → String)) (u tp : String)
    (hfail : remote u = none)
    (urls : List String)
    (huniq : ∀ u' ∈ urls, u' ≠ u →
      targetOf group_by_date extract_date destination rename_function u' ≠ some tp) :
    ∀ fs : FS, tp ∉ (processUrls remote destination group_by_date extract_date skip_if_exists
      rename_function false fs urls).saved := by
  induction urls with
  | nil => intro fs; simp [processUrls]
  | cons u' rest ih =>
    intro fs
    have ih2 := ih (fun x hx hne => huniq x (by simp [hx]) hne)
    unfold processUrls
    cases hf : folderOf group_by_date extract_date destination (filenameOf rename_function u') with
    | none => simpa [hf] using ih2 fs
    | some folder =>
      by_cases hs : skip_if_exists = true ∧ fileExists (makedirs fs folder)
          (osJoin folder (filenameOf rename_function u')) = true
      · obtain ⟨hs1, hs2⟩ := hs
        subst hs1
        simpa [hf, hs2] using ih2 _
      · cases hfr : _fetch_and_save_file remote u'
          (osJoin folder (filenameOf rename_function u')) (makedirs fs folder) with
        | mk fs2 ok =>
          cases ok
          · simpa [hf, hs, hfr] using ih2 fs2
          · have hne : u' ≠ u := by
              intro he
              subst he
              unfold _fetch_and_save_file at hfr
              rw [hfail] at hfr
              cases hfr
            have htpne : osJoin folder (filenameOf rename_function u') ≠ tp := by
              intro he
              exact huniq u' (by simp) hne
                (by rw [targetOf_of_folder _ _ _ _ _ _ hf, he])
            simp [hf, hs, hfr]
            exact ⟨fun he => htpne he.symm, ih2 fs2⟩

end Fetcher

/-- C10 (refuted as stated): the first URL's fetch fails (non-200) and
writes nothing, yet its destination path `d/x.nc` appears in the list of
saved files, written there by the second URL which shares the same
basename. -/
theorem C10_counterexample :
    (fun u => if u = "http://b/x.nc" then some "c" else (none : Option String)) "http://a/x.nc" = none
    ∧ Fetcher.download_beehive_files
        (fun u => if u = "http://b/x.nc" then some "c" else none)
        ["http://a/x.nc", "http://b/x.nc"] "d" none false true none none false ⟨[], []⟩
      = Except.ok ⟨⟨[("d/x.nc", "c")], ["d"]⟩, ["d/x.nc"],
          [⟨"http://a/x.nc", some "d/x.nc", Fetcher.OutKind.failedHttp⟩,
           ⟨"http://b/x.nc", some "d/x.nc", Fetcher.OutKind.downloaded⟩],
          [("http://a/x.nc", "d/x.nc"), ("http://b/x.nc", "d/x.nc")]⟩
    ∧ Fetcher.targetOf false (Fetcher.extractorOf false none) "d" none "http://a/x.nc" = some "d/x.nc"
    ∧ "d/x.nc" ∈ (["d/x.nc"] : List String) := by
  exact ⟨rfl, rfl, rfl, by decide⟩

/-- C10 (amended): when the response for a URL is not 200,
`_fetch_and_save_file` leaves the filesystem unchanged and returns
`False`, and the record contributes no entry to the saved list; its
destination path is absent from the returned list provided no other
candidate URL resolves to the same destination path. -/
theorem C10_failed_fetch_excluded (remote : String → Option String) (values : List String)
    (destination : String) (extension_filter : Option String) (group_by_date : Bool)
    (skip_if_exists : Bool) (rename_function : Option (String → String))
    (date_regex : Option (String → Option String)) (fs : Fetcher.FS)
    (u tp : String) (r : Fetcher.RunResult)
    (h : Fetcher.download_beehive_files remote values destination extension_filter group_by_date
      skip_if_exists rename_function date_regex false fs = Except.ok r)
    (hfail : remote u = none)
    (huniq : ∀ u' ∈ Fetcher.candidatesOf extension_filter values, u' ≠ u →
      Fetcher.targetOf group_by_date (Fetcher.extractorOf group_by_date date_regex)
        destination rename_function u' ≠ some tp) :
    (∀ fs2 : Fetcher.FS, Fetcher._fetch_and_save_file remote u tp fs2 = (fs2, false))
    ∧ tp ∉ r.saved := by
  constructor
  · intro fs2
    unfold Fetcher._fetch_and_save_file
    rw [hfail]
  · unfold Fetcher.download_beehive_files at h
    by_cases hempty : values.isEmpty = true
    · rw [if_pos hempty] at h
      injection h with h
      subst h
      simp
    · rw [if_neg (by simpa using hempty)] at h
      by_cases hg : (group_by_date && date_regex.isNone) = true
      · rw [if_pos hg] at h
        cases h
      · rw [if_neg (by simpa using hg)] at h
        injection h with h
        subst h
        exact Fetcher.processUrls_failed_not_saved _ _ _ _ _ _ u tp hfail _ huniq fs

/-- C10 witness: a failing URL whose destination path is shared with no
other candidate is excluded from the saved list. -/
theorem C10_failed_fetch_excluded_witness :
    (∀ fs2 : Fetcher.FS,
      Fetcher._fetch_and_save_file (fun _ => none) "http://a/x.nc" "d/x.nc" fs2 = (fs2, false))
    ∧ "d/x.nc" ∉ (Fetcher.RunResult.mk ⟨[], ["d"]⟩ []
        [⟨"http://a/x.nc", some "d/x.nc", Fetcher.OutKind.failedHttp⟩]
        [("http://a/x.nc", "d/x.nc")]).saved := by
  exact C10_failed_fetch_excluded (fun _ => none) ["http://a/x.nc"] "d" none false true none
    none ⟨[], []⟩ "http://a/x.nc" "d/x.nc" _ (by rfl) rfl
    (by intro u' hu' hne; rw [show Fetcher.candidatesOf none ["http://a/x.nc"] = ["http://a/x.nc"] from rfl] at hu'; rw [List.mem_singleton] at hu'; exact absurd hu' hne)

namespace Fetcher

lemma fileExists_makedirs (fs : FS) (d p : String) :
    fileExists (makedirs fs d) p = fileExists fs p := by
  unfold makedirs fileExists
  split <;> rfl

lemma fileExists_writeFile_self (fs : FS) (p c : String) :
    fileExists (writeFile fs p c) p = true := by
  unfold writeFile fileExists
  simp [List.lookup]

lemma fileExists_writeFile_mono (fs : FS) (q c p : String)
    (h : fileExists fs p = true) : fileExists (writeFile fs q c) p = true := by
  unfold writeFile fileExists at *
  simp only [List.lookup]
  by_cases hpq : (p == q) = true
  · simp [hpq]
  · rw [Bool.not_eq_true] at hpq
    simpa [hpq] using h

lemma dirs_makedirs_self (fs : FS) (d : String) : d ∈ (makedirs fs d).dirs := by
  unfold makedirs
  split
  · assumption
  · simp

lemma dirs_makedirs_mono (fs : FS) (d d' : String) (h : d ∈ fs.dirs) :
    d ∈ (makedirs fs d').dirs := by
  unfold makedirs
  split
  · exact h
  · simp [h]

lemma makedirs_mem (fs : FS) (d : String) (h : d ∈ fs.dirs) : makedirs fs d = fs := by
  unfold makedirs
  rw [if_pos h]


lemma processUrls_cons_none (remote : String → Option String) (destination : String)
    (group_by_date : Bool) (extract_date : String → Option String) (skip_if_exists : Bool)
    (rename_function : Option (String → String)) (dry_run : Bool) (fs : FS)
    (u : String) (rest : List String)
    (hf : folderOf group_by_date extract_date destination (filenameOf rename_function u) = none) :
    processUrls remote destination group_by_date extract_date skip_if_exists rename_function
        dry_run fs (u :: rest) =
      { fs := (processUrls remote destination group_by_date extract_date skip_if_exists rename_function dry_run fs rest).fs,
        saved := (processUrls remote destination group_by_date extract_date skip_if_exists rename_function dry_run fs rest).saved,
        outcomes := { url := u, path := none, kind := OutKind.skippedNoDate } ::
          (processUrls remote destination group_by_date extract_date skip_if_exists rename_function dry_run fs rest).outcomes,
        netCalls := (processUrls remote destination group_by_date extract_date skip_if_exists rename_function dry_run fs rest).netCalls } := by
  simp [processUrls, hf]


lemma processUrls_cons_skip (remote : String → Option String) (destination : String)
    (group_by_date : Bool) (extract_date : String → Option String) (skip_if_exists : Bool)
    (rename_function : Option (String → String)) (dry_run : Bool) (fs : FS)
    (u : String) (rest : List String) (folder : String)
    (hf : folderOf group_by_date extract_date destination (filenameOf rename_function u) = some folder)
    (hs : skip_if_exists = true)
    (he : fileExists (makedirs fs folder) (osJoin folder (filenameOf rename_function u)) = true) :
    processUrls remote destination group_by_date extract_date skip_if_exists rename_function
        dry_run fs (u :: rest) =
      { fs := (processUrls remote destination group_by_date extract_date skip_if_exists rename_function dry_run (makedirs fs folder) rest).fs,
        saved := (processUrls remote destination group_by_date extract_date skip_if_exists rename_function dry_run (makedirs fs folder) rest).saved,
        outcomes := ⟨u, some (osJoin folder (filenameOf rename_function u)), OutKind.skippedExists⟩ ::
          (processUrls remote destination group_by_date extract_date skip_if_exists rename_function dry_run (makedirs fs folder) rest).outcomes,
        netCalls := (processUrls remote destination group_by_date extract_date skip_if_exists rename_function dry_run (makedirs fs folder) rest).netCalls } := by
  subst hs
  simp [processUrls, hf, he]


lemma processUrls_cons_dry (remote : String → Option String) (destination : String)
    (group_by_date : Bool) (extract_date : String → Option String) (skip_if_exists : Bool)
    (rename_function : Option (String → String)) (fs : FS)
    (u : String) (rest : List String) (folder : String)
    (hf : folderOf group_by_date extract_date destination (filenameOf rename_function u) = some folder)
    (hs : ¬(skip_if_exists = true ∧ fileExists (makedirs fs folder)
      (osJoin folder (filenameOf rename_function u)) = true)) :
    processUrls remote destination group_by_date extract_date skip_if_exists rename_function
        true fs (u :: rest) =
      { fs := (processUrls remote destination group_by_date extract_date skip_if_exists rename_function true (makedirs fs folder) rest).fs,
        saved := osJoin folder (filenameOf rename_function u) ::
          (processUrls remote destination group_by_date extract_date skip_if_exists rename_function true (makedirs fs folder) rest).saved,
        outcomes := ⟨u, some (osJoin folder (filenameOf rename_function u)), OutKind.dryRunWouldDownload⟩ ::
          (processUrls remote destination group_by_date extract_date skip_if_exists rename_function true (makedirs fs folder) rest).outcomes,
        netCalls := (processUrls remote destination group_by_date extract_date skip_if_exists rename_function true (makedirs fs folder) rest).netCalls } := by
  simp [processUrls, hf, hs]


lemma processUrls_cons_dl (remote : String → Option String) (destination : String)
    (group_by_date : Bool) (extract_date : String → Option String) (skip_if_exists : Bool)
    (rename_function : Option (String → String)) (fs fs2 : FS)
    (u : String) (rest : List String) (folder : String)
    (hf : folderOf group_by_date extract_date destination (filenameOf rename_function u) = some folder)
    (hs : ¬(skip_if_exists = true ∧ fileExists (makedirs fs folder)
      (osJoin folder (filenameOf rename_function u)) = true))
    (hfr : _fetch_and_save_file remote u (osJoin folder (filenameOf rename_function u))
      (makedirs fs folder) = (fs2, true)) :
    processUrls remote destination group_by_date extract_date skip_if_exists rename_function
        false fs (u :: rest) =
      { fs := (processUrls remote destination group_by_date extract_date skip_if_exists rename_function false fs2 rest).fs,
        saved := osJoin folder (filenameOf rename_function u) ::
          (processUrls remote destination group_by_date extract_date skip_if_exists rename_function false fs2 rest).saved,
        outcomes := ⟨u, some (osJoin folder (filenameOf rename_function u)), OutKind.downloaded⟩ ::
          (processUrls remote destination group_by_date extract_date skip_if_exists rename_function false fs2 rest).outcomes,
        netCalls := (u, osJoin folder (filenameOf rename_function u)) ::
          (processUrls remote destination group_by_date extract_date skip_if_exists rename_function false fs2 rest).netCalls } := by
  simp [processUrls, hf, hs, hfr]


lemma processUrls_cons_fail (remote : String → Option String) (destination : String)
    (group_by_date : Bool) (extract_date : String → Option String) (skip_if_exists : Bool)
    (rename_function : Option (String → String)) (fs fs2 : FS)
    (u : String) (rest : List String) (folder : String)
    (hf : folderOf group_by_date extract_date destination (filenameOf rename_function u) = some folder)
    (hs : ¬(skip_if_exists = true ∧ fileExists (makedirs fs folder)
      (osJoin folder (filenameOf rename_function u)) = true))
    (hfr : _fetch_and_save_file remote u (osJoin folder (filenameOf rename_function u))
      (makedirs fs folder) = (fs2, false)) :
    processUrls remote destination group_by_date extract_date skip_if_exists rename_function
        false fs (u :: rest) =
      { fs := (processUrls remote destination group_by_date extract_date skip_if_exists rename_function false fs2 rest).fs,
        saved := (processUrls remote destination group_by_date extract_date skip_if_exists rename_function false fs2 rest).saved,
        outcomes := ⟨u, some (osJoin folder (filenameOf rename_function u)), OutKind.failedHttp⟩ ::
          (processUrls remote destination group_by_date extract_date skip_if_exists rename_function false fs2 rest).outcomes,
        netCalls := (u, osJoin folder (filenameOf rename_function u)) ::
          (processUrls remote destination group_by_date extract_date skip_if_exists rename_function false fs2 rest).netCalls } := by
  simp [processUrls, hf, hs, hfr]

end Fetcher

namespace Fetcher

lemma fetch_result_mono (remote : String → Option String) (u tp : String) (fs0 fs2 : FS)
    (ok : Bool) (hfr : _fetch_and_save_file remote u tp fs0 = (fs2, ok)) :
    (∀ p, fileExists fs0 p = true → fileExists fs2 p = true) ∧ fs2.dirs = fs0.dirs := by
  unfold _fetch_and_save_file at hfr
  cases hrm : remote u with
  | some content =>
    rw [hrm] at hfr
    injection hfr with hfs hok
    subst hfs
    exact ⟨fun p hp => fileExists_writeFile_mono _ _ _ _ hp, rfl⟩
  | none =>
    rw [hrm] at hfr
    injection hfr with hfs hok
    subst hfs
    exact ⟨fun p hp => hp, rfl⟩

lemma processUrls_mono (remote : String → Option String) (destination : String)
    (group_by_date : Bool) (extract_date : String → Option String) (skip_if_exists : Bool)
    (rename_function : Option (String → String)) (urls : List String) :
    ∀ fs : FS,
      (∀ p, fileExists fs p = true →
        fileExists (processUrls remote destination group_by_date extract_date skip_if_exists
          rename_function false fs urls).fs p = true)
      ∧ (∀ d, d ∈ fs.dirs →
        d ∈ (processUrls remote destination group_by_date extract_date skip_if_exists
          rename_function false fs urls).fs.dirs) := by
  induction urls with
  | nil => intro fs; exact ⟨fun p h => h, fun d h => h⟩
  | cons u rest ih =>
    intro fs
    cases hf : folderOf group_by_date extract_date destination (filenameOf rename_function u) with
    | none =>
      rw [processUrls_cons_none _ _ _ _ _ _ _ _ _ _ hf]
      exact ih fs
    | some folder =>
      by_cases hs : skip_if_exists = true ∧ fileExists (makedirs fs folder)
          (osJoin folder (filenameOf rename_function u)) = true
      · rw [processUrls_cons_skip _ _ _ _ _ _ _ _ _ _ _ hf hs.1 hs.2]
        refine ⟨?_, ?_⟩
        · intro p hp
          exact (ih (makedirs fs folder)).1 p (by rw [fileExists_makedirs]; exact hp)
        · intro d hd
          exact (ih (makedirs fs folder)).2 d (dirs_makedirs_mono fs d folder hd)
      · cases hfr : _fetch_and_save_file remote u
          (osJoin folder (filenameOf rename_function u)) (makedirs fs folder) with
        | mk fs2 ok =>
          have hmono := fetch_result_mono remote u _ _ fs2 ok hfr
          cases ok
          · rw [processUrls_cons_fail _ _ _ _ _ _ _ _ _ _ _ hf hs hfr]
            refine ⟨?_, ?_⟩
            · intro p hp
              exact (ih fs2).1 p (hmono.1 p (by rw [fileExists_makedirs]; exact hp))
            · intro d hd
              exact (ih fs2).2 d (by rw [hmono.2]; exact dirs_makedirs_mono fs d folder hd)
          · rw [processUrls_cons_dl _ _ _ _ _ _ _ _ _ _ _ hf hs hfr]
            refine ⟨?_, ?_⟩
            · intro p hp
              exact (ih fs2).1 p (hmono.1 p (by rw [fileExists_makedirs]; exact hp))
            · intro d hd
              exact (ih fs2).2 d (by rw [hmono.2]; exact dirs_makedirs_mono fs d folder hd)

end Fetcher

namespace Fetcher

lemma fetch_false_remote (remote : String → Option String) (u tp : String) (fs0 fs2 : FS)
    (hfr : _fetch_and_save_file remote u tp fs0 = (fs2, false)) :
    remote u = none ∧ fs2 = fs0 := by
  unfold _fetch_and_save_file at hfr
  cases hrm : remote u with
  | some content => rw [hrm] at hfr; cases hfr
  | none =>
    rw [hrm] at hfr
    injection hfr with hfs hok
    exact ⟨rfl, hfs.symm⟩

lemma fetch_true_exists (remote : String → Option String) (u tp : String) (fs0 fs2 : FS)
    (hfr : _fetch_and_save_file remote u tp fs0 = (fs2, true)) :
    fileExists fs2 tp = true := by
  unfold _fetch_and_save_file at hfr
  cases hrm : remote u with
  | some content =>
    rw [hrm] at hfr
    injection hfr with hfs hok
    rw [← hfs]
    exact fileExists_writeFile_self _ _ _
  | none => rw [hrm] at hfr; cases hfr

lemma processUrls_establishes (remote : String → Option String) (destination : String)
    (group_by_date : Bool) (extract_date : String → Option String) (skip_if_exists : Bool)
    (rename_function : Option (String → String)) (urls : List String) :
    ∀ fs : FS, ∀ u ∈ urls, ∀ folder,
      folderOf group_by_date extract_date destination (filenameOf rename_function u) = some folder →
      folder ∈ (processUrls remote destination group_by_date extract_date skip_if_exists
        rename_function false fs urls).fs.dirs
      ∧ (fileExists (processUrls remote destination group_by_date extract_date skip_if_exists
          rename_function false fs urls).fs
          (osJoin folder (filenameOf rename_function u)) = true
        ∨ remote u = none) := by
  induction urls with
  | nil => intro fs u hu; cases hu
  | cons u' rest ih =>
    intro fs u hu folder hfu
    rcases List.mem_cons.mp hu with heq | hmem
    · subst heq
      cases hf : folderOf group_by_date extract_date destination (filenameOf rename_function u) with
      | none => rw [hf] at hfu; cases hfu
      | some folder' =>
        rw [hf] at hfu
        injection hfu with hfeq
        rw [hfeq] at hf
        by_cases hs : skip_if_exists = true ∧ fileExists (makedirs fs folder)
            (osJoin folder (filenameOf rename_function u)) = true
        · rw [processUrls_cons_skip _ _ _ _ _ _ _ _ _ _ _ hf hs.1 hs.2]
          constructor
          · exact (processUrls_mono _ _ _ _ _ _ _ _).2 folder (dirs_makedirs_self fs folder)
          · exact Or.inl ((processUrls_mono _ _ _ _ _ _ _ _).1 _ hs.2)
        · cases hfr : _fetch_and_save_file remote u
            (osJoin folder (filenameOf rename_function u)) (makedirs fs folder) with
          | mk fs2 ok =>
            have hmono := fetch_result_mono remote u _ _ fs2 ok hfr
            cases ok
            · obtain ⟨hrm, hfs2⟩ := fetch_false_remote remote u _ _ fs2 hfr
              rw [processUrls_cons_fail _ _ _ _ _ _ _ _ _ _ _ hf hs hfr]
              constructor
              · refine (processUrls_mono _ _ _ _ _ _ _ _).2 folder ?_
                rw [hmono.2]
                exact dirs_makedirs_self fs folder
              · exact Or.inr hrm
            · have hex := fetch_true_exists remote u _ _ fs2 hfr
              rw [processUrls_cons_dl _ _ _ _ _ _ _ _ _ _ _ hf hs hfr]
              constructor
              · refine (processUrls_mono _ _ _ _ _ _ _ _).2 folder ?_
                rw [hmono.2]
                exact dirs_makedirs_self fs folder
              · exact Or.inl ((processUrls_mono _ _ _ _ _ _ _ _).1 _ hex)
    · cases hf : folderOf group_by_date extract_date destination (filenameOf rename_function u') with
      | none =>
        rw [processUrls_cons_none _ _ _ _ _ _ _ _ _ _ hf]
        exact ih fs u hmem folder hfu
      | some folder' =>
        by_cases hs : skip_if_exists = true ∧ fileExists (makedirs fs folder')
            (osJoin folder' (filenameOf rename_function u')) = true
        · rw [processUrls_cons_skip _ _ _ _ _ _ _ _ _ _ _ hf hs.1 hs.2]
          exact ih _ u hmem folder hfu
        · cases hfr : _fetch_and_save_file remote u'
            (osJoin folder' (filenameOf rename_function u')) (makedirs fs folder') with
          | mk fs2 ok =>
            cases ok
            · rw [processUrls_cons_fail _ _ _ _ _ _ _ _ _ _ _ hf hs hfr]
              exact ih fs2 u hmem folder hfu
            · rw [processUrls_cons_dl _ _ _ _ _ _ _ _ _ _ _ hf hs hfr]
              exact ih fs2 u hmem folder hfu

end Fetcher

namespace Fetcher

lemma processUrls_noop (remote : String → Option String) (destination : String)
    (group_by_date : Bool) (extract_date : String → Option String)
    (rename_function : Option (String → String)) (urls : List String) (fs : FS)
    (hK : ∀ u ∈ urls, ∀ folder,
      folderOf group_by_date extract_date destination (filenameOf rename_function u) = some folder →
      folder ∈ fs.dirs ∧ (fileExists fs (osJoin folder (filenameOf rename_function u)) = true
        ∨ remote u = none)) :
    (processUrls remote destination group_by_date extract_date true rename_function
      false fs urls).fs = fs
    ∧ (processUrls remote destination group_by_date extract_date true rename_function
      false fs urls).saved = []
    ∧ ∀ o ∈ (processUrls remote destination group_by_date extract_date true rename_function
        false fs urls).outcomes,
      (o.kind = OutKind.skippedExists ∨ o.kind = OutKind.skippedNoDate
        ∨ o.kind = OutKind.failedHttp)
      ∧ ∀ p, o.path = some p → fileExists fs p = true → o.kind = OutKind.skippedExists := by
  induction urls with
  | nil => exact ⟨rfl, rfl, by intro o ho; cases ho⟩
  | cons u rest ih =>
    have ihr := ih (fun x hx => hK x (by simp [hx]))
    cases hf : folderOf group_by_date extract_date destination (filenameOf rename_function u) with
    | none =>
      rw [processUrls_cons_none _ _ _ _ _ _ _ _ _ _ hf]
      refine ⟨ihr.1, ihr.2.1, ?_⟩
      intro o ho
      rcases List.mem_cons.mp ho with rfl | hmem
      · exact ⟨Or.inr (Or.inl rfl), by intro p hp; cases hp⟩
      · exact ihr.2.2 o hmem
    | some folder =>
      obtain ⟨hdir, hex⟩ := hK u (by simp) folder hf
      have hmd : makedirs fs folder = fs := makedirs_mem fs folder hdir
      by_cases he : fileExists (makedirs fs folder)
          (osJoin folder (filenameOf rename_function u)) = true
      · rw [processUrls_cons_skip _ _ _ _ _ _ _ _ _ _ _ hf rfl he, hmd]
        refine ⟨ihr.1, ihr.2.1, ?_⟩
        intro o ho
        rcases List.mem_cons.mp ho with rfl | hmem
        · exact ⟨Or.inl rfl, fun p hp hfe => rfl⟩
        · exact ihr.2.2 o hmem
      · have hrm : remote u = none := by
          rcases hex with hx | hx
          · exact absurd (by rw [hmd]; exact hx) he
          · exact hx
        have hfr : _fetch_and_save_file remote u (osJoin folder (filenameOf rename_function u))
            (makedirs fs folder) = (makedirs fs folder, false) := by
          unfold _fetch_and_save_file
          rw [hrm]
        rw [processUrls_cons_fail _ _ _ _ _ _ _ _ _ _ _ hf (by simp [he]) hfr, hmd]
        refine ⟨ihr.1, ihr.2.1, ?_⟩
        intro o ho
        rcases List.mem_cons.mp ho with rfl | hmem
        · refine ⟨Or.inr (Or.inr rfl), ?_⟩
          intro p hp hfe
          injection hp with hpe
          exfalso
          rw [hmd] at he
          rw [← hpe] at hfe
          exact he hfe
        · exact ihr.2.2 o hmem

end Fetcher

/-- C3: with `skip_if_exists` on, a second live run over the same record
set starting from the first run's filesystem leaves the filesystem
exactly as the first run left it, returns an empty saved list, performs
zero downloads (no `downloaded` and no dry-run outcome), and skips as
`skipped-exists` every record whose destination file exists. -/
theorem C3_second_run_idempotent (remote : String → Option String) (values : List String)
    (destination : String) (extension_filter : Option String) (group_by_date : Bool)
    (rename_function : Option (String → String)) (date_regex : Option (String → Option String))
    (fs : Fetcher.FS) (r1 : Fetcher.RunResult)
    (h1 : Fetcher.download_beehive_files remote values destination extension_filter group_by_date
      true rename_function date_regex false fs = Except.ok r1) :
    ∃ r2, Fetcher.download_beehive_files remote values destination extension_filter group_by_date
        true rename_function date_regex false r1.fs = Except.ok r2
      ∧ r2.fs = r1.fs
      ∧ r2.saved = []
      ∧ (∀ o ∈ r2.outcomes, o.kind ≠ Fetcher.OutKind.downloaded
          ∧ o.kind ≠ Fetcher.OutKind.dryRunWouldDownload)
      ∧ (∀ o ∈ r2.outcomes, ∀ p, o.path = some p →
          Fetcher.fileExists r1.fs p = true → o.kind = Fetcher.OutKind.skippedExists) := by
  unfold Fetcher.download_beehive_files at h1 ⊢
  by_cases hempty : values.isEmpty = true
  · rw [if_pos hempty] at h1 ⊢
    injection h1 with h1
    subst h1
    refine ⟨_, rfl, rfl, rfl, ?_, ?_⟩
    · intro o ho
      cases ho
    · intro o ho
      cases ho
  · rw [if_neg (by simpa using hempty)] at h1 ⊢
    by_cases hg : (group_by_date && date_regex.isNone) = true
    · rw [if_pos hg] at h1
      cases h1
    · rw [if_neg (by simpa using hg)] at h1 ⊢
      injection h1 with h1
      subst h1
      have hK := Fetcher.processUrls_establishes remote destination group_by_date
        (Fetcher.extractorOf group_by_date date_regex) true rename_function
        (Fetcher.candidatesOf extension_filter values) fs
      have hno := Fetcher.processUrls_noop remote destination group_by_date
        (Fetcher.extractorOf group_by_date date_regex) rename_function
        (Fetcher.candidatesOf extension_filter values) _ hK
      refine ⟨_, rfl, hno.1, hno.2.1, ?_, ?_⟩
      · intro o ho
        obtain ⟨hkind, _⟩ := hno.2.2 o ho
        rcases hkind with h | h | h
        · exact ⟨by rw [h]; decide, by rw [h]; decide⟩
        · exact ⟨by rw [h]; decide, by rw [h]; decide⟩
        · exact ⟨by rw [h]; decide, by rw [h]; decide⟩
      · intro o ho
        exact (hno.2.2 o ho).2

/-- C3 witness: after one run downloads a file, the second run from the
resulting filesystem changes nothing and saves nothing. -/
theorem C3_second_run_idempotent_witness :
    ∃ r2, Fetcher.download_beehive_files (fun _ => some "c") ["http://a/f.nc"] "d"
        none false true none none false
        (Fetcher.RunResult.mk ⟨[("d/f.nc", "c")], ["d"]⟩ ["d/f.nc"]
          [⟨"http://a/f.nc", some "d/f.nc", Fetcher.OutKind.downloaded⟩]
          [("http://a/f.nc", "d/f.nc")]).fs = Except.ok r2
      ∧ r2.fs = (Fetcher.RunResult.mk ⟨[("d/f.nc", "c")], ["d"]⟩ ["d/f.nc"]
          [⟨"http://a/f.nc", some "d/f.nc", Fetcher.OutKind.downloaded⟩]
          [("http://a/f.nc", "d/f.nc")]).fs
      ∧ r2.saved = []
      ∧ (∀ o ∈ r2.outcomes, o.kind ≠ Fetcher.OutKind.downloaded
          ∧ o.kind ≠ Fetcher.OutKind.dryRunWouldDownload)
      ∧ (∀ o ∈ r2.outcomes, ∀ p, o.path = some p →
          Fetcher.fileExists (Fetcher.RunResult.mk ⟨[("d/f.nc", "c")], ["d"]⟩ ["d/f.nc"]
            [⟨"http://a/f.nc", some "d/f.nc", Fetcher.OutKind.downloaded⟩]
            [("http://a/f.nc", "d/f.nc")]).fs p = true →
          o.kind = Fetcher.OutKind.skippedExists) := by
  exact C3_second_run_idempotent (fun _ => some "c") ["http://a/f.nc"] "d" none false
    none none ⟨[], []⟩ _ (by rfl)

namespace Fetcher

lemma files_makedirs (fs : FS) (d : String) : (makedirs fs d).files = fs.files := by
  unfold makedirs
  split <;> rfl

lemma fileExists_writeFile_cases (fs : FS) (p c q : String)
    (h : fileExists (writeFile fs p c) q = true) : q = p ∨ fileExists fs q = true := by
  unfold writeFile fileExists at *
  simp only [List.lookup] at h
  by_cases hqp : (q == p) = true
  · exact Or.inl (by simpa using hqp)
  · rw [Bool.not_eq_true] at hqp
    right
    simpa [hqp] using h

lemma fetch_result_cases (remote : String → Option String) (u tp : String) (fs0 fs2 : FS)
    (ok : Bool) (hfr : _fetch_and_save_file remote u tp fs0 = (fs2, ok)) :
    ∀ q, fileExists fs2 q = true → q = tp ∨ fileExists fs0 q = true := by
  unfold _fetch_and_save_file at hfr
  cases hrm : remote u with
  | some content =>
    rw [hrm] at hfr
    injection hfr with hfs hok
    subst hfs
    intro q hq
    exact fileExists_writeFile_cases _ _ _ _ hq
  | none =>
    rw [hrm] at hfr
    injection hfr with hfs hok
    subst hfs
    intro q hq
    exact Or.inr hq

lemma processUrls_dry_live (remote : String → Option String) (destination : String)
    (group_by_date : Bool) (extract_date : String → Option String) (skip_if_exists : Bool)
    (rename_function : Option (String → String)) (urls : List String) :
    ∀ (fsD fsL : FS) (H : List String),
      (∀ p, fileExists fsD p = true → fileExists fsL p = true) →
      (∀ p, fileExists fsL p = true → fileExists fsD p = true ∨ p ∈ H) →
      (processUrls remote destination group_by_date extract_date skip_if_exists
        rename_function true fsD urls).fs.files = fsD.files
      ∧ (processUrls remote destination group_by_date extract_date skip_if_exists
        rename_function true fsD urls).netCalls = []
      ∧ (∀ o ∈ (processUrls remote destination group_by_date extract_date skip_if_exists
          rename_function true fsD urls).outcomes,
          o.kind ≠ OutKind.downloaded ∧ o.kind ≠ OutKind.failedHttp)
      ∧ (∀ p, p ∈ (processUrls remote destination group_by_date extract_date skip_if_exists
          rename_function true fsD urls).saved →
          p ∈ ((processUrls remote destination group_by_date extract_date skip_if_exists
            rename_function false fsL urls).netCalls.map Prod.snd) ∨ p ∈ H)
      ∧ (∀ p, p ∈ ((processUrls remote destination group_by_date extract_date skip_if_exists
          rename_function false fsL urls).netCalls.map Prod.snd) →
          p ∈ (processUrls remote destination group_by_date extract_date skip_if_exists
            rename_function true fsD urls).saved) := by
  induction urls with
  | nil =>
    intro fsD fsL H hLD hDL
    refine ⟨rfl, rfl, ?_, ?_, ?_⟩
    · intro o ho
      cases ho
    · intro p hp
      cases hp
    · intro p hp
      simp [processUrls] at hp
  | cons u rest ih =>
    intro fsD fsL H hLD hDL
    cases hf : folderOf group_by_date extract_date destination (filenameOf rename_function u) with
    | none =>
      obtain ⟨i1, i2, i3, i4, i5⟩ := ih fsD fsL H hLD hDL
      rw [processUrls_cons_none remote destination group_by_date extract_date skip_if_exists
          rename_function true fsD u rest hf,
        processUrls_cons_none remote destination group_by_date extract_date skip_if_exists
          rename_function false fsL u rest hf]
      refine ⟨i1, i2, ?_, i4, i5⟩
      intro o ho
      rcases List.mem_cons.mp ho with rfl | hmem
      · exact ⟨by simp, by simp⟩
      · exact i3 o hmem
    | some folder =>
      by_cases hB : skip_if_exists = true ∧ fileExists fsD
          (osJoin folder (filenameOf rename_function u)) = true
      · have hLex : fileExists fsL (osJoin folder (filenameOf rename_function u)) = true :=
          hLD _ hB.2
        obtain ⟨i1, i2, i3, i4, i5⟩ := ih (makedirs fsD folder) (makedirs fsL folder) H
          (by intro p hp
              rw [fileExists_makedirs] at hp ⊢
              exact hLD p hp)
          (by intro p hp
              rw [fileExists_makedirs] at hp ⊢
              exact hDL p hp)
        rw [processUrls_cons_skip remote destination group_by_date extract_date skip_if_exists
            rename_function true fsD u rest folder hf hB.1
            (by rw [fileExists_makedirs]; exact hB.2),
          processUrls_cons_skip remote destination group_by_date extract_date skip_if_exists
            rename_function false fsL u rest folder hf hB.1
            (by rw [fileExists_makedirs]; exact hLex)]
        refine ⟨by rw [i1, files_makedirs], i2, ?_, i4, i5⟩
        intro o ho
        rcases List.mem_cons.mp ho with rfl | hmem
        · exact ⟨by simp, by simp⟩
        · exact i3 o hmem
      · by_cases hC : skip_if_exists = true ∧ fileExists fsL
            (osJoin folder (filenameOf rename_function u)) = true
        · have hDf : fileExists fsD (osJoin folder (filenameOf rename_function u)) = false := by
            cases hx : fileExists fsD (osJoin folder (filenameOf rename_function u)) with
            | false => rfl
            | true => exact absurd ⟨hC.1, hx⟩ hB
          have htpH : (osJoin folder (filenameOf rename_function u)) ∈ H := by
            rcases hDL _ hC.2 with hx | hx
            · rw [hDf] at hx
              cases hx
            · exact hx
          obtain ⟨i1, i2, i3, i4, i5⟩ := ih (makedirs fsD folder) (makedirs fsL folder) H
            (by intro p hp
                rw [fileExists_makedirs] at hp ⊢
                exact hLD p hp)
            (by intro p hp
                rw [fileExists_makedirs] at hp ⊢
                exact hDL p hp)
          rw [processUrls_cons_dry remote destination group_by_date extract_date skip_if_exists
              rename_function fsD u rest folder hf
              (by rw [fileExists_makedirs]; exact hB),
            processUrls_cons_skip remote destination group_by_date extract_date skip_if_exists
              rename_function false fsL u rest folder hf hC.1
              (by rw [fileExists_makedirs]; exact hC.2)]
          refine ⟨by rw [i1, files_makedirs], i2, ?_, ?_, ?_⟩
          · intro o ho
            rcases List.mem_cons.mp ho with rfl | hmem
            · exact ⟨by simp, by simp⟩
            · exact i3 o hmem
          · intro p hp
            rcases List.mem_cons.mp hp with rfl | hmem
            · exact Or.inr htpH
            · exact i4 p hmem
          · intro p hp
            exact List.mem_cons_of_mem _ (i5 p hp)
        · have hsD : ¬(skip_if_exists = true ∧ fileExists (makedirs fsD folder)
              (osJoin folder (filenameOf rename_function u)) = true) := by
            rw [fileExists_makedirs]
            exact hB
          have hsL : ¬(skip_if_exists = true ∧ fileExists (makedirs fsL folder)
              (osJoin folder (filenameOf rename_function u)) = true) := by
            rw [fileExists_makedirs]
            exact hC
          cases hfrL : _fetch_and_save_file remote u
              (osJoin folder (filenameOf rename_function u)) (makedirs fsL folder) with
          | mk fs2 ok =>
            have hmono := fetch_result_mono remote u _ _ fs2 ok hfrL
            have hcases := fetch_result_cases remote u _ _ fs2 ok hfrL
            obtain ⟨i1, i2, i3, i4, i5⟩ := ih (makedirs fsD folder) fs2
              ((osJoin folder (filenameOf rename_function u)) :: H)
              (by intro p hp
                  rw [fileExists_makedirs] at hp
                  exact hmono.1 p (by rw [fileExists_makedirs]; exact hLD p hp))
              (by intro p hp
                  rcases hcases p hp with rfl | hx
                  · exact Or.inr (by simp)
                  · rw [fileExists_makedirs] at hx
                    rcases hDL p hx with hy | hy
                    · exact Or.inl (by rw [fileExists_makedirs]; exact hy)
                    · exact Or.inr (by simp [hy]))
            cases ok
            · rw [processUrls_cons_dry remote destination group_by_date extract_date
                  skip_if_exists rename_function fsD u rest folder hf hsD,
                processUrls_cons_fail remote destination group_by_date extract_date
                  skip_if_exists rename_function fsL fs2 u rest folder hf hsL hfrL]
              refine ⟨by rw [i1, files_makedirs], i2, ?_, ?_, ?_⟩
              · intro o ho
                rcases List.mem_cons.mp ho with rfl | hmem
                · exact ⟨by simp, by simp⟩
                · exact i3 o hmem
              · intro p hp
                rcases List.mem_cons.mp hp with rfl | hmem
                · exact Or.inl (by simp)
                · rcases i4 p hmem with hx | hx
                  · exact Or.inl (by simp at hx ⊢; exact Or.inr hx)
                  · rcases List.mem_cons.mp hx with rfl | hy
                    · exact Or.inl (by simp)
                    · exact Or.inr hy
              · intro p hp
                simp only [List.map_cons, List.mem_cons] at hp
                rcases hp with rfl | hmem
                · exact List.mem_cons_self _ _
                · exact List.mem_cons_of_mem _ (i5 p (by simpa using hmem))
            · rw [processUrls_cons_dry remote destination group_by_date extract_date
                  skip_if_exists rename_function fsD u rest folder hf hsD,
                processUrls_cons_dl remote destination group_by_date extract_date
                  skip_if_exists rename_function fsL fs2 u rest folder hf hsL hfrL]
              refine ⟨by rw [i1, files_makedirs], i2, ?_, ?_, ?_⟩
              · intro o ho
                rcases List.mem_cons.mp ho with rfl | hmem
                · exact ⟨by simp, by simp⟩
                · exact i3 o hmem
              · intro p hp
                rcases List.mem_cons.mp hp with rfl | hmem
                · exact Or.inl (by simp)
                · rcases i4 p hmem with hx | hx
                  · exact Or.inl (by simp at hx ⊢; exact Or.inr hx)
                  · rcases List.mem_cons.mp hx with rfl | hy
                    · exact Or.inl (by simp)
                    · exact Or.inr hy
              · intro p hp
                simp only [List.map_cons, List.mem_cons] at hp
                rcases hp with rfl | hmem
                · exact List.mem_cons_self _ _
                · exact List.mem_cons_of_mem _ (i5 p (by simpa using hmem))

end Fetcher

/-- C8: a dry run makes no network call and leaves the files on disk
untouched (only directories may be created), and the set of destination
paths it reports equals the set of destination paths a live run from the
same state would attempt to download (attempted = actually fetched,
successfully or not). -/
theorem C8_dry_run_frame_and_report (remote : String → Option String) (values : List String)
    (destination : String) (extension_filter : Option String) (group_by_date : Bool)
    (skip_if_exists : Bool) (rename_function : Option (String → String))
    (date_regex : Option (String → Option String)) (fs : Fetcher.FS)
    (hval : group_by_date = true → date_regex.isSome = true) :
    ∃ rD rL,
      Fetcher.download_beehive_files remote values destination extension_filter group_by_date
        skip_if_exists rename_function date_regex true fs = Except.ok rD
      ∧ Fetcher.download_beehive_files remote values destination extension_filter group_by_date
        skip_if_exists rename_function date_regex false fs = Except.ok rL
      ∧ rD.fs.files = fs.files
      ∧ rD.netCalls = []
      ∧ (∀ o ∈ rD.outcomes, o.kind ≠ Fetcher.OutKind.downloaded
          ∧ o.kind ≠ Fetcher.OutKind.failedHttp)
      ∧ (∀ p, p ∈ rD.saved ↔ p ∈ rL.netCalls.map Prod.snd) := by
  have hg : (group_by_date && date_regex.isNone) = false := by
    cases hgb : group_by_date with
    | false => simp
    | true =>
      have h2 := hval hgb
      cases hdr : date_regex with
      | none => rw [hdr] at h2; cases h2
      | some f => simp
  unfold Fetcher.download_beehive_files
  by_cases hempty : values.isEmpty = true
  · rw [if_pos hempty, if_pos hempty]
    refine ⟨_, _, rfl, rfl, rfl, rfl, ?_, ?_⟩
    · intro o ho
      cases ho
    · intro p
      constructor
      · intro hp
        cases hp
      · intro hp
        simp at hp
  · rw [if_neg (by simpa using hempty), if_neg (by simp [hg]),
      if_neg (by simpa using hempty), if_neg (by simp [hg])]
    obtain ⟨i1, i2, i3, i4, i5⟩ := Fetcher.processUrls_dry_live remote destination group_by_date
      (Fetcher.extractorOf group_by_date date_regex) skip_if_exists rename_function
      (Fetcher.candidatesOf extension_filter values) fs fs []
      (fun p hp => hp) (fun p hp => Or.inl hp)
    refine ⟨_, _, rfl, rfl, i1, i2, i3, ?_⟩
    intro p
    constructor
    · intro hp
      rcases i4 p hp with hx | hx
      · exact hx
      · cases hx
    · intro hp
      exact i5 p hp

/-- C8 witness: two concrete URLs, one of whose files already exists on
disk: the dry run reports exactly the one path a live run would fetch,
touches no file and makes no network call. -/
theorem C8_dry_run_frame_and_report_witness :
    ∃ rD rL,
      Fetcher.download_beehive_files (fun _ => some "c") ["http://a/f.nc", "http://b/g.nc"] "d"
        none false true none none true ⟨[("d/f.nc", "x")], ["d"]⟩ = Except.ok rD
      ∧ Fetcher.download_beehive_files (fun _ => some "c") ["http://a/f.nc", "http://b/g.nc"] "d"
        none false true none none false ⟨[("d/f.nc", "x")], ["d"]⟩ = Except.ok rL
      ∧ rD.fs.files = (Fetcher.FS.mk [("d/f.nc", "x")] ["d"]).files
      ∧ rD.netCalls = []
      ∧ (∀ o ∈ rD.outcomes, o.kind ≠ Fetcher.OutKind.downloaded
          ∧ o.kind ≠ Fetcher.OutKind.failedHttp)
      ∧ (∀ p, p ∈ rD.saved ↔ p ∈ rL.netCalls.map Prod.snd) := by
  exact C8_dry_run_frame_and_report (fun _ => some "c") ["http://a/f.nc", "http://b/g.nc"] "d"
    none false true none none ⟨[("d/f.nc", "x")], ["d"]⟩ (by intro h; cases h)
